import Mathlib

/-!
Shallow embedding of the docgen tool (tools/docgen) of this repository:
the TypeScript extractor (`src/extractors/typescript.rs`) and the markdown
renderer (`src/generators/markdown.rs`), together with proofs settling the
frozen claims about them.

Source strings are modelled as `List Char` (the sources are ASCII; Rust byte
indices into the tag literals coincide with character indices).  The
filesystem is an explicit association list from paths to file states, and the
random iteration order of Rust's `HashMap` is an explicit function parameter.
Rust panics and `?`-propagated errors are both modelled by `Option` (`none`).
The handwritten matchers below transcribe, constructor by constructor, the
six regular expressions of `extract_file`; each one is reproduced in the
doc comment of its matcher.
-/

set_option maxRecDepth 8192

namespace Docgen

/-- Characters of a source string. -/
abbrev Str := List Char

/-- Whitespace test modelling the regex class `\s` and Rust `char::is_whitespace`
on ASCII input. -/
def isWsChar (c : Char) : Bool :=
  c == ' ' || c == '\t' || c == '\n' || c == '\r' || c == '\x0b' || c == '\x0c'

/-- Word-character test modelling the regex class `\w` on ASCII input. -/
def isWordChar (c : Char) : Bool :=
  c.isAlphanum || c == '_'

/-- Rust `str::trim_start` (ASCII whitespace). -/
def trimStartStr (s : Str) : Str := s.dropWhile isWsChar

/-- Rust `str::trim_end` (ASCII whitespace). -/
def trimEndStr (s : Str) : Str := (s.reverse.dropWhile isWsChar).reverse

/-- Rust `str::trim` (ASCII whitespace). -/
def trimStr (s : Str) : Str := trimEndStr (trimStartStr s)

/-- Rust `str::split(sep)`: split at every occurrence of `sep`; an empty
input yields one empty piece, like Rust's iterator. -/
def splitOnChar (sep : Char) : Str → List Str
  | [] => [[]]
  | c :: cs =>
    if c == sep then [] :: splitOnChar sep cs
    else
      match splitOnChar sep cs with
      | [] => [[c]]
      | r :: rs => (c :: r) :: rs

/-- Drop a trailing carriage return, as Rust `str::lines` does for lines that
were terminated by a newline. -/
def stripCr (p : Str) : Str :=
  match p.getLast? with
  | some '\r' => p.dropLast
  | _ => p

/-- Helper for `rustLines`: every piece except the genuinely last one was
terminated by a newline and loses a trailing carriage return; a last empty
piece (from a trailing newline) is dropped. -/
def rustLinesGo : List Str → List Str
  | [] => []
  | [p] => if p.isEmpty then [] else [p]
  | p :: rest => stripCr p :: rustLinesGo rest

/-- Rust `str::lines`. -/
def rustLines (s : Str) : List Str :=
  if s.isEmpty then [] else rustLinesGo (splitOnChar '\n' s)

/-- Does `needle` match at the very start of `hay`? -/
def leadMatch : Str → Str → Bool
  | [], _ => true
  | _ :: _, [] => false
  | n :: ns, h :: hs => n == h && leadMatch ns hs

/-- Rust `str::contains(needle)`: substring test. -/
def strHasSub (hay needle : Str) : Bool :=
  match hay with
  | [] => leadMatch needle []
  | _ :: hs => leadMatch needle hay || strHasSub hs needle

/-- Match a literal at the start of the input, returning the remainder. -/
def dropLit : Str → Str → Option Str
  | [], s => some s
  | _ :: _, [] => none
  | l :: ls, c :: cs => if c == l then dropLit ls cs else none

/-- Rust `str::rfind(lit)`: index of the start of the last occurrence. -/
def rfindLit (lit : Str) : Str → Option Nat
  | [] => if (dropLit lit ([] : Str)).isSome then some 0 else none
  | c :: cs =>
    match rfindLit lit cs with
    | some i => some (i + 1)
    | none => if (dropLit lit (c :: cs)).isSome then some 0 else none

/-- Rust `str::splitn(2, sep)`: the part before the first occurrence of `sep`,
and the part after it when `sep` occurs at all. -/
def splitFirstChar (sep : Char) : Str → Str × Option Str
  | [] => ([], none)
  | c :: cs =>
    if c == sep then ([], some cs)
    else
      let (a, b) := splitFirstChar sep cs
      (c :: a, b)

/-- Rust `Vec::join("\n")` on a list of lines. -/
def joinNl : List Str → Str
  | [] => []
  | [x] => x
  | x :: xs => x ++ '\n' :: joinNl xs

/-- Rust `Vec::join(" ")` on a list of description lines. -/
def joinSpace : List Str → Str
  | [] => []
  | [x] => x
  | x :: xs => x ++ ' ' :: joinSpace xs

/-- Decimal rendering of a count, as Rust `format!("{}", n)`. -/
def natStr (n : Nat) : Str := (Nat.repr n).data

/-- The `count_lines` helper of `typescript.rs`: number of newline characters. -/
def count_lines (s : Str) : Nat := s.count '\n'

/-- Association-list insertion modelling `HashMap::insert` (replace the value
when the key is present, add a binding otherwise). -/
def mapInsert {β : Type} (k : Str) (v : β) : List (Str × β) → List (Str × β)
  | [] => [(k, v)]
  | (k', v') :: rest =>
    if k' = k then (k, v) :: rest else (k', v') :: mapInsert k v rest

/-- Association-list lookup modelling `HashMap::get`. -/
def alLookup {β : Type} (k : Str) : List (Str × β) → Option β
  | [] => none
  | (k', v') :: rest => if k' = k then some v' else alLookup k rest

/-- Kind of exported symbol (`ExportKind` in `types.rs`). -/
inductive ExportKind
  | kFunction
  | kClass
  | kInterface
  | kType
  | kEnum
  | kConst
  | kVariable
deriving DecidableEq, Repr

/-- Function parameter (`Parameter` in `types.rs`).  The Rust field
`type_annotation` is rendered `typeAnn` and `default` is rendered `dflt`. -/
structure Parameter where
  name : Str
  typeAnn : Str
  description : Option Str
  optional : Bool
  dflt : Option Str
deriving DecidableEq, Repr

/-- Exported symbol (`Export` in `types.rs`). -/
structure Export where
  name : Str
  kind : ExportKind
  description : Option Str
  source_file : Str
  line : Nat
  signature : Option Str
  params : List Parameter
  returns : Option Str
  examples : List Str
  deprecated : Option Str
deriving DecidableEq, Repr

/-- Parsed doc comment (`JsDoc` in `typescript.rs`); the `params` HashMap is an
association list with replace-on-insert. -/
structure JsDoc where
  description : Option Str
  params : List (Str × Str)
  returns : Option Str
  examples : List Str
  deprecated : Option Str
deriving DecidableEq, Repr

/-- The freshly initialised `JsDoc` of `extract_jsdoc`. -/
def jsdocEmpty : JsDoc := ⟨none, [], none, [], none⟩

/-- Accumulator for the line loop of `extract_jsdoc`: the locals
`description_lines`, `in_example`, `current_example` plus the `jsdoc` record. -/
structure JsState where
  descLines : List Str
  inExample : Bool
  curExample : Str
  js : JsDoc
deriving DecidableEq, Repr

/-- One iteration of the `for line in comment.lines()` loop of `extract_jsdoc`.
The result is `none` exactly when the Rust code panics: the `@returns`/`@return`
branch slices `line[8..]`, which is out of bounds for a line that is exactly
`"@return"` (7 bytes). -/
def jsdocLineStep (st : JsState) (rawLine : Str) : Option JsState :=
  let line := trimStr ((trimStr rawLine).dropWhile (· == '*'))
  if (dropLit ("@param".data) line).isSome then
    let rest := trimStr (line.drop 6)
    let (p0, p1) := splitFirstChar ' ' rest
    match p1 with
    | some tail =>
      let key := ((p0.dropWhile (· == '\x7b')).reverse.dropWhile (· == '\x7d')).reverse
      some { st with js := { st.js with params := mapInsert key tail st.js.params } }
    | none => some st
  else if (dropLit ("@returns".data) line).isSome || (dropLit ("@return".data) line).isSome then
    if line.length < 8 then none
    else some { st with js := { st.js with returns := some (trimStr (line.drop 8)) } }
  else if (dropLit ("@example".data) line).isSome then
    some { st with inExample := true }
  else if (dropLit ("@deprecated".data) line).isSome then
    some { st with js := { st.js with deprecated := some (trimStr (line.drop 11)) } }
  else if (dropLit ("@".data) line).isSome then
    if st.inExample && !st.curExample.isEmpty then
      some { st with inExample := false, curExample := [],
                     js := { st.js with examples := st.js.examples ++ [trimStr st.curExample] } }
    else some { st with inExample := false }
  else if st.inExample then
    some { st with curExample := st.curExample ++ line ++ ['\n'] }
  else if !line.isEmpty then
    some { st with descLines := st.descLines ++ [line] }
  else some st

/-- The `extract_jsdoc` helper of `typescript.rs`: find the last `*/` before
`export_start`, the last `/**` before that, and classify the comment's lines.
`none` models the `line[8..]` panic described at `jsdocLineStep`. -/
def extract_jsdoc (content : Str) (export_start : Nat) : Option JsDoc :=
  let before := content.take export_start
  match rfindLit ("*/".data) before with
  | none => some jsdocEmpty
  | some comment_end =>
    match rfindLit ("/**".data) (before.take comment_end) with
    | none => some jsdocEmpty
    | some comment_start =>
      let comment := (before.take comment_end).drop (comment_start + 3)
      match (rustLines comment).foldlM jsdocLineStep ⟨[], false, [], jsdocEmpty⟩ with
      | none => none
      | some st =>
        let js :=
          if st.inExample && !st.curExample.isEmpty then
            { st.js with examples := st.js.examples ++ [trimStr st.curExample] }
          else st.js
        some (if st.descLines.isEmpty then js
              else { js with description := some (joinSpace st.descLines) })

/-- The `parse_function_params` helper of `typescript.rs`: split the raw
parameter text on every comma, skip empty segments, record the optional
marker, split each segment at its first colon, and look the parameter's
description up in the doc comment's map. -/
def parse_function_params (params_str : Str) (jsdoc : JsDoc) : List Parameter :=
  if (trimStr params_str).isEmpty then []
  else
    (splitOnChar ',' params_str).foldl (fun acc seg =>
      let p := trimStr seg
      if p.isEmpty then acc
      else
        let optional := p.contains '?'
        let p := p.filter (· != '?')
        let (n0, t0) := splitFirstChar ':' p
        let name := trimStr n0
        let typeAnn :=
          match t0 with
          | some t => trimStr t
          | none => "unknown".data
        acc ++ [{ name := name, typeAnn := typeAnn,
                  description := alLookup name jsdoc.params,
                  optional := optional, dflt := none }]) []

/-! ### Matchers for the six regular expressions of `extract_file`

Each matcher tries the pattern at one candidate start position (a line start,
for the `(?m)^` anchor) and returns the captures together with the remaining
suffix after the match.  A greedy piece followed by a character it can never
absorb (`\s+` before a keyword, `\w+` before a non-word character, `<[^>]+>`)
munches maximally without loss.  Where a greedy whitespace run precedes a
required negated-class capture that can itself absorb whitespace
(`=\s*([^;]+);`, `:\s*([^{]+)` and `:\s*([^=]+)` in the optional groups, and
`extends\s+[^{]+` / `implements\s+[^{]+`), the engine backtracks exactly one
whitespace character into the capture when maximal munch would leave the
capture empty; `wsStarCap` and `clauseKw` model that backtracking.  The lazy
piece `[\s\S]*?\*/` and the optional doc-comment group backtrack through the
continuation, which is modelled in `jsdocBody`/`tryJsdocPre`. -/

/-- Continuation-passing search for the end `*/` of the lazy doc-comment body
`[\s\S]*?\*/\s*`: try the earliest `*/` first, and on failure of the rest of
the pattern resume the scan one character further. -/
def jsdocBody {α : Type} (cont : Str → Option α) : Str → Option α
  | [] => none
  | c :: cs =>
    match dropLit ("*/".data) (c :: cs) with
    | some rest =>
      match cont (rest.dropWhile isWsChar) with
      | some a => some a
      | none => jsdocBody cont cs
    | none => jsdocBody cont cs

/-- The optional leading doc-comment group `(?:/\*\*[\s\S]*?\*/\s*)?`: prefer
matching the group (greedy), fall back to skipping it. -/
def tryJsdocPre {α : Type} (cont : Str → Option α) (s : Str) : Option α :=
  match dropLit ("/**".data) s with
  | some rest =>
    match jsdocBody cont rest with
    | some a => some a
    | none => cont s
  | none => cont s

/-- The optional group `(?:<[^>]+>)?`.  When the group cannot match, it is
skipped; the following piece of every pattern using it (`\s*\(`, `\s*\{` or
`\s*=`) can never match at `<`, so committing on success is faithful. -/
def tryGeneric (s : Str) : Str :=
  match s with
  | '<' :: rest =>
    let g := rest.takeWhile (· != '>')
    if g.isEmpty then s
    else
      match rest.dropWhile (· != '>') with
      | '>' :: r2 => r2
      | _ => s
  | _ => s

/-- The optional group `(?:async\s+)?`; skipping after a successful match can
never help, because `function` does not match at `async`. -/
def tryAsync (s : Str) : Str :=
  match dropLit ("async".data) s with
  | some r =>
    match r with
    | c :: cs => if isWsChar c then cs.dropWhile isWsChar else s
    | [] => s
  | none => s

/-- The optional group `(?:const\s+)?` of the enum pattern. -/
def tryConstKw (s : Str) : Str :=
  match dropLit ("const".data) s with
  | some r =>
    match r with
    | c :: cs => if isWsChar c then cs.dropWhile isWsChar else s
    | [] => s
  | none => s

/-- Regex `\s+`: at least one whitespace character, then maximal munch. -/
def dropWs1 (s : Str) : Option Str :=
  match s with
  | c :: cs => if isWsChar c then some (cs.dropWhile isWsChar) else none
  | [] => none

/-- Regex `(\w+)`: a non-empty maximal word, with the remainder. -/
def takeWord1 (s : Str) : Option (Str × Str) :=
  if (s.takeWhile isWordChar).isEmpty then none
  else some (s.takeWhile isWordChar, s.dropWhile isWordChar)

/-- Regex `[^x]*`: maximal run avoiding `x`, with the remainder. -/
def takeUntilCh (x : Char) (s : Str) : Str × Str :=
  (s.takeWhile (· != x), s.dropWhile (· != x))

/-- One required literal character. -/
def requireCh (x : Char) : Str → Option Str
  | c :: cs => if c == x then some cs else none
  | [] => none

/-- The piece `\s*([^x]+)` followed by the literal `x` (any `\s*` standing
between the capture and the literal matches nothing, because the greedy
capture runs to the first `x`).  The greedy `\s*` normally keeps the leading
whitespace out of the capture; when the first `x` directly follows the
whitespace run, the engine backtracks one whitespace character into the
required capture, and with no whitespace to give back the piece fails.
Returns the capture and the remainder after `x`. -/
def wsStarCap (x : Char) (u : Str) : Option (Str × Str) :=
  match takeUntilCh x (u.dropWhile isWsChar) with
  | (cap, _ :: rest) =>
    if cap.isEmpty then
      match (u.takeWhile isWsChar).getLast? with
      | some wch => some ([wch], rest)
      | none => none
    else some (cap, rest)
  | (_, []) => none

/-- Tail of the interface pattern
`export\s+interface\s+(\w+)(?:<[^>]+>)?\s*\{([^}]*)\}` after the optional
doc-comment group; captures (name, body). -/
def ifaceTail (s1 : Str) : Option ((Str × Str) × Str) := do
  let s2 ← dropLit ("export".data) s1
  let s3 ← dropWs1 s2
  let s4 ← dropLit ("interface".data) s3
  let s5 ← dropWs1 s4
  let (name, s6) ← takeWord1 s5
  let s7 := tryGeneric s6
  let s8 := s7.dropWhile isWsChar
  let s9 ← requireCh '\x7b' s8
  let (body, s10) := takeUntilCh '\x7d' s9
  let s11 ← requireCh '\x7d' s10
  some ((name, body), s11)

/-- Matcher for the interface regex of `extract_file` (line 101). -/
def matchIface (s : Str) : Option ((Str × Str) × Str) := tryJsdocPre ifaceTail s

/-- Tail of the type-alias pattern
`export\s+type\s+(\w+)(?:<[^>]+>)?\s*=\s*([^;]+);`; captures (name, rhs).
The `\s*([^;]+);` piece after `=` is `wsStarCap`, including the one-character
whitespace backtrack into the capture. -/
def typeTail (s1 : Str) : Option ((Str × Str) × Str) := do
  let s2 ← dropLit ("export".data) s1
  let s3 ← dropWs1 s2
  let s4 ← dropLit ("type".data) s3
  let s5 ← dropWs1 s4
  let (name, s6) ← takeWord1 s5
  let s7 := tryGeneric s6
  let s8 := s7.dropWhile isWsChar
  let s9 ← requireCh '=' s8
  let (rhs, s10) ← wsStarCap ';' s9
  some ((name, rhs), s10)

/-- Matcher for the type-alias regex of `extract_file` (line 125). -/
def matchType (s : Str) : Option ((Str × Str) × Str) := tryJsdocPre typeTail s

/-- The optional return-type group `(?:\s*:\s*([^{]+))?` of the function
pattern, together with the closing `\s*\{` in the successful case: the
`\s*([^{]+)\s*\{` piece after `:` is `wsStarCap` (the greedy capture runs to
the first brace, so the second `\s*` matches nothing), including the
one-character whitespace backtrack into the capture. -/
def fnRet (s : Str) : Option (Str × Str) := do
  let s1 := s.dropWhile isWsChar
  let s2 ← requireCh ':' s1
  wsStarCap '\x7b' s2

/-- Tail of the function pattern
`export\s+(?:async\s+)?function\s+(\w+)\s*(?:<[^>]+>)?\s*\(([^)]*)\)(?:\s*:\s*([^{]+))?\s*\{`;
captures (name, raw parameter text, optional return-type text). -/
def fnTail (s1 : Str) : Option ((Str × Str × Option Str) × Str) := do
  let s2 ← dropLit ("export".data) s1
  let s3 ← dropWs1 s2
  let s4 := tryAsync s3
  let s5 ← dropLit ("function".data) s4
  let s6 ← dropWs1 s5
  let (name, s7) ← takeWord1 s6
  let s8 := s7.dropWhile isWsChar
  let s9 := tryGeneric s8
  let s10 := s9.dropWhile isWsChar
  let s11 ← requireCh '(' s10
  let (ps, s12) := takeUntilCh ')' s11
  let s13 ← requireCh ')' s12
  match fnRet s13 with
  | some (ret, s14) => some ((name, ps, some ret), s14)
  | none => do
    let s15 := s13.dropWhile isWsChar
    let s16 ← requireCh '\x7b' s15
    some ((name, ps, none), s16)

/-- Matcher for the function regex of `extract_file` (line 149). -/
def matchFn (s : Str) : Option ((Str × Str × Option Str) × Str) := tryJsdocPre fnTail s

/-- The optional type-annotation group `(?:\s*:\s*([^=]+))?` of the const
pattern, together with the closing `\s*=` in the successful case: the
`\s*([^=]+)\s*=` piece after `:` is `wsStarCap`, including the one-character
whitespace backtrack into the capture. -/
def constTy (s : Str) : Option (Str × Str) := do
  let s1 := s.dropWhile isWsChar
  let s2 ← requireCh ':' s1
  wsStarCap '=' s2

/-- Tail of the const pattern
`export\s+const\s+(\w+)(?:\s*:\s*([^=]+))?\s*=`; captures
(name, optional type-annotation text). -/
def constTail (s1 : Str) : Option ((Str × Option Str) × Str) := do
  let s2 ← dropLit ("export".data) s1
  let s3 ← dropWs1 s2
  let s4 ← dropLit ("const".data) s3
  let s5 ← dropWs1 s4
  let (name, s6) ← takeWord1 s5
  match constTy s6 with
  | some (ty, s7) => some ((name, some ty), s7)
  | none => do
    let s8 := s6.dropWhile isWsChar
    let s9 ← requireCh '=' s8
    some ((name, none), s9)

/-- Matcher for the const regex of `extract_file` (line 176). -/
def matchConst (s : Str) : Option ((Str × Option Str) × Str) := tryJsdocPre constTail s

/-- An inheritance clause `(?:\s+KW\s+[^{]+)?` of the class pattern
(`KW` = `extends` or `implements`); nothing is captured.  The `\s+[^{]+`
piece after the keyword needs at least one whitespace character and at least
one content character; when the maximal whitespace run butts against the
first brace, the engine backtracks one whitespace character into `[^{]+`
(possible only when the run has at least two characters).  The remainder
starts at the first brace (or the end of the input). -/
def clauseKw (kw : Str) (s : Str) : Option Str := do
  let s1 ← dropWs1 s
  let s2 ← dropLit kw s1
  match s2 with
  | c :: cs =>
    if isWsChar c then
      match takeUntilCh '\x7b' (cs.dropWhile isWsChar) with
      | (cap, rest) =>
        if cap.isEmpty then
          match rest with
          | '\x7b' :: _ =>
            if (cs.takeWhile isWsChar).isEmpty then none else some rest
          | _ => none
        else some rest
    else none
  | [] => none

/-- Tail of the class pattern
`export\s+class\s+(\w+)(?:<[^>]+>)?(?:\s+extends\s+[^{]+)?(?:\s+implements\s+[^{]+)?\s*\{`;
captures the name only. -/
def classTail (s1 : Str) : Option (Str × Str) := do
  let s2 ← dropLit ("export".data) s1
  let s3 ← dropWs1 s2
  let s4 ← dropLit ("class".data) s3
  let s5 ← dropWs1 s4
  let (name, s6) ← takeWord1 s5
  let s7 := tryGeneric s6
  let s8 :=
    match clauseKw ("extends".data) s7 with
    | some r => r
    | none => s7
  let s9 :=
    match clauseKw ("implements".data) s8 with
    | some r => r
    | none => s8
  let s10 := s9.dropWhile isWsChar
  let s11 ← requireCh '\x7b' s10
  some (name, s11)

/-- Matcher for the class regex of `extract_file` (line 200). -/
def matchClass (s : Str) : Option (Str × Str) := tryJsdocPre classTail s

/-- Tail of the enum pattern `export\s+(?:const\s+)?enum\s+(\w+)\s*\{`;
captures the name only. -/
def enumTail (s1 : Str) : Option (Str × Str) := do
  let s2 ← dropLit ("export".data) s1
  let s3 ← dropWs1 s2
  let s4 := tryConstKw s3
  let s5 ← dropLit ("enum".data) s4
  let s6 ← dropWs1 s5
  let (name, s7) ← takeWord1 s6
  let s8 := s7.dropWhile isWsChar
  let s9 ← requireCh '\x7b' s8
  some (name, s9)

/-- Matcher for the enum regex of `extract_file` (line 223). -/
def matchEnum (s : Str) : Option (Str × Str) := tryJsdocPre enumTail s

/-- Is the character at index `i` a newline? -/
def nlAt (s : Str) (i : Nat) : Bool :=
  match s.drop i with
  | c :: _ => c == '\n'
  | [] => false

/-- Scanner loop modelling `Regex::captures_iter` for a multiline-anchored
pattern: at every position where `(?m)^` holds, try the matcher; record
(start position, captures) on success and resume after the match.  The fuel
starts above the input length, which bounds the number of steps. -/
def scanGo {α : Type} (m : Str → Option (α × Str)) :
    Nat → Nat → Bool → Str → List (Nat × α)
  | 0, _, _, _ => []
  | _ + 1, _, _, [] => []
  | fuel + 1, pos, atLS, c :: cs =>
    if atLS then
      match m (c :: cs) with
      | some (a, rest) =>
        if (c :: cs).length - rest.length = 0 then
          scanGo m fuel (pos + 1) (c == '\n') cs
        else
          (pos, a) :: scanGo m fuel (pos + ((c :: cs).length - rest.length))
            (nlAt (c :: cs) ((c :: cs).length - rest.length - 1))
            ((c :: cs).drop ((c :: cs).length - rest.length))
      | none => scanGo m fuel (pos + 1) (c == '\n') cs
    else scanGo m fuel (pos + 1) (c == '\n') cs

/-- Run the scanner over a whole file (position 0 is a line start). -/
def scanRe {α : Type} (m : Str → Option (α × Str)) (s : Str) : List (Nat × α) :=
  scanGo m (s.length + 1) 0 true s

/-! ### The `extract_file` passes -/

/-- Build the `Export` pushed by the interface loop of `extract_file`. -/
def mkIface (c path : Str) (pa : Nat × (Str × Str)) : Option Export := do
  let pos := pa.1
  let name := pa.2.1
  let j ← extract_jsdoc c pos
  pure { name := name, kind := .kInterface, description := j.description,
         source_file := path, line := count_lines (c.take pos) + 1,
         signature := some ("interface ".data ++ name),
         params := [], returns := none,
         examples := j.examples, deprecated := j.deprecated }

/-- Build the `Export` pushed by the type-alias loop of `extract_file`. -/
def mkType (c path : Str) (pa : Nat × (Str × Str)) : Option Export := do
  let pos := pa.1
  let name := pa.2.1
  let rhs := pa.2.2
  let j ← extract_jsdoc c pos
  pure { name := name, kind := .kType, description := j.description,
         source_file := path, line := count_lines (c.take pos) + 1,
         signature := some ("type ".data ++ name ++ " = ".data ++ trimStr rhs),
         params := [], returns := none,
         examples := j.examples, deprecated := j.deprecated }

/-- Build the `Export` pushed by the function loop of `extract_file`. -/
def mkFn (c path : Str) (pa : Nat × (Str × Str × Option Str)) : Option Export := do
  let pos := pa.1
  let name := pa.2.1
  let ps := pa.2.2.1
  let ret := pa.2.2.2
  let j ← extract_jsdoc c pos
  pure { name := name, kind := .kFunction, description := j.description,
         source_file := path, line := count_lines (c.take pos) + 1,
         signature := some ("function ".data ++ name ++ "(".data ++ ps ++ ")".data),
         params := parse_function_params ps j,
         returns := ret.map trimStr,
         examples := j.examples, deprecated := j.deprecated }

/-- Build the `Export` pushed by the const loop of `extract_file`. -/
def mkConst (c path : Str) (pa : Nat × (Str × Option Str)) : Option Export := do
  let pos := pa.1
  let name := pa.2.1
  let ty := pa.2.2
  let j ← extract_jsdoc c pos
  pure { name := name, kind := .kConst, description := j.description,
         source_file := path, line := count_lines (c.take pos) + 1,
         signature := ty.map (fun t => "const ".data ++ name ++ ": ".data ++ trimStr t),
         params := [], returns := none,
         examples := j.examples, deprecated := j.deprecated }

/-- Build the `Export` pushed by the class loop of `extract_file`. -/
def mkClass (c path : Str) (pa : Nat × Str) : Option Export := do
  let pos := pa.1
  let name := pa.2
  let j ← extract_jsdoc c pos
  pure { name := name, kind := .kClass, description := j.description,
         source_file := path, line := count_lines (c.take pos) + 1,
         signature := some ("class ".data ++ name),
         params := [], returns := none,
         examples := j.examples, deprecated := j.deprecated }

/-- Build the `Export` pushed by the enum loop of `extract_file`. -/
def mkEnum (c path : Str) (pa : Nat × Str) : Option Export := do
  let pos := pa.1
  let name := pa.2
  let j ← extract_jsdoc c pos
  pure { name := name, kind := .kEnum, description := j.description,
         source_file := path, line := count_lines (c.take pos) + 1,
         signature := some ("enum ".data ++ name),
         params := [], returns := none,
         examples := j.examples, deprecated := j.deprecated }

/-- The interface pass of `extract_file` (lines 100-121). -/
def ifacePass (c path : Str) : Option (List Export) :=
  (scanRe matchIface c).mapM (mkIface c path)

/-- The type-alias pass of `extract_file` (lines 124-145). -/
def typePass (c path : Str) : Option (List Export) :=
  (scanRe matchType c).mapM (mkType c path)

/-- The function pass of `extract_file` (lines 148-172). -/
def fnPass (c path : Str) : Option (List Export) :=
  (scanRe matchFn c).mapM (mkFn c path)

/-- The const pass of `extract_file` (lines 175-196). -/
def constPass (c path : Str) : Option (List Export) :=
  (scanRe matchConst c).mapM (mkConst c path)

/-- The class pass of `extract_file` (lines 199-219). -/
def classPass (c path : Str) : Option (List Export) :=
  (scanRe matchClass c).mapM (mkClass c path)

/-- The enum pass of `extract_file` (lines 222-242). -/
def enumPass (c path : Str) : Option (List Export) :=
  (scanRe matchEnum c).mapM (mkEnum c path)

/-- The pure body of `extract_file` after the file has been read: the six
pattern passes run in the fixed source order and their results are
concatenated.  `none` models a panic inside `extract_jsdoc`. -/
def extract_content (c path : Str) : Option (List Export) := do
  let li ← ifacePass c path
  let lt ← typePass c path
  let lf ← fnPass c path
  let lk ← constPass c path
  let lc ← classPass c path
  let le ← enumPass c path
  pure (li ++ lt ++ lf ++ lk ++ lc ++ le)

/-! ### Filesystem model and `extract_package` -/

/-- The filesystem, an association list from path to file state: a present
readable file carries `some` content, a present unreadable file carries
`none`, an absent path has no binding. -/
abbrev FS := List (Str × Option Str)

/-- Rust `Path::exists`. -/
def fsExists (fs : FS) (p : Str) : Bool := (alLookup p fs).isSome

/-- Rust `std::fs::read_to_string` as an `Option`: `none` when the file is
absent or unreadable. -/
def fsRead (fs : FS) (p : Str) : Option Str := (alLookup p fs).bind id

/-- The `read_optional_file` helper of `typescript.rs`
(`read_to_string(path).ok()`). -/
def read_optional_file (fs : FS) (p : Str) : Option Str := fsRead fs p

/-- The `extract_file` function of `typescript.rs`: read the file, then run
the six passes. -/
def extract_file (fs : FS) (path : Str) : Option (List Export) := do
  let content ← fsRead fs path
  extract_content content path

/-- Rust `Path::join` for a relative right operand. -/
def pathJoin (a b : Str) : Str := a ++ '/' :: b

/-- Rust `Path::file_name` (modelled as the last `/`-separated component;
claims never exercise trailing-separator corner cases). -/
def fileNameStr (p : Str) : Str := ((splitOnChar '/' p).getLast?).getD []

/-- Rust `Path::extension`: the part of the file name after its last dot,
none when there is no dot or the dot is leading. -/
def extOf (p : Str) : Option Str :=
  let f := fileNameStr p
  match rfindLit (".".data) f with
  | none => none
  | some 0 => none
  | some i => some (f.drop (i + 1))

/-- The extension filter of the `extract_package` tree walk:
`ext == "ts" || ext == "tsx"`. -/
def hasTsExt (p : Str) : Bool :=
  match extOf p with
  | some e => e == "ts".data || e == "tsx".data
  | none => false

/-- Glob matching modelling `glob::Pattern::matches` for the class-free
patterns the tool is configured with: `*` and `?` do not cross `/`, `**`
does, everything else is literal. -/
def globMatchGo : Nat → Str → Str → Bool
  | 0, _, _ => false
  | _ + 1, [], t => t.isEmpty
  | fuel + 1, '*' :: '*' :: ps, t =>
    globMatchGo fuel ps t ||
    (match t with
     | _ :: ts => globMatchGo fuel ('*' :: '*' :: ps) ts
     | [] => false)
  | fuel + 1, '*' :: ps, t =>
    globMatchGo fuel ps t ||
    (match t with
     | c :: ts => c != '/' && globMatchGo fuel ('*' :: ps) ts
     | [] => false)
  | fuel + 1, '?' :: ps, t =>
    (match t with
     | c :: ts => c != '/' && globMatchGo fuel ps ts
     | [] => false)
  | fuel + 1, pc :: ps, t =>
    match t with
    | c :: ts => c == pc && globMatchGo fuel ps ts
    | [] => false

/-- The `is_excluded` helper of `typescript.rs`: some exclusion pattern
matches the path (`Pattern::new` is modelled as always succeeding, which is
exact for the class-free patterns in use). -/
def is_excluded (p : Str) (patterns : List Str) : Bool :=
  patterns.any (fun pat => globMatchGo (pat.length + p.length + 1) pat p)

/-- Is `p` strictly inside directory `dir`? -/
def isUnderDir (dir p : Str) : Bool := (dropLit (dir ++ ['/']) p).isSome

/-- Directory existence in the filesystem model: some file lives under it. -/
def dirExists (fs : FS) (dir : Str) : Bool := fs.any (fun e => isUnderDir dir e.1)

/-- The files visited by `WalkDir::new(dir)`, in filesystem order. -/
def walkFiles (fs : FS) (dir : Str) : List Str :=
  (fs.filter (fun e => isUnderDir dir e.1)).map (·.1)

/-! ### Manifest reading (`package.json` via `serde_json`) -/

/-- JSON values, modelling `serde_json::Value`. -/
inductive Json
  | jnull
  | jbool (b : Bool)
  | jnum (n : Int)
  | jstr (s : Str)
  | jarr (elems : List Json)
  | jobj (members : List (Str × Json))

/-- JSON insignificant whitespace. -/
def skipWsJ (s : Str) : Str :=
  s.dropWhile (fun c => c == ' ' || c == '\t' || c == '\n' || c == '\r')

/-- Parse a JSON string body after the opening quote.  The `\uXXXX` escape is
consumed and replaced by a placeholder character; the extractor only compares
manifest strings that use no such escape. -/
def jsonStrGo : Str → Option (Str × Str)
  | [] => none
  | c :: cs =>
    if c == '"' then some ([], cs)
    else if c == '\\' then
      match cs with
      | e :: cs2 =>
        if e == 'u' then
          match cs2 with
          | _ :: _ :: _ :: _ :: cs3 => do
            let (r, rest) ← jsonStrGo cs3
            pure ('?' :: r, rest)
          | _ => none
        else do
          let ec : Char :=
            if e == 'n' then '\n' else if e == 't' then '\t'
            else if e == 'r' then '\r' else if e == 'b' then '\x08'
            else if e == 'f' then '\x0c' else e
          let (r, rest) ← jsonStrGo cs2
          pure (ec :: r, rest)
      | [] => none
    else do
      let (r, rest) ← jsonStrGo cs
      pure (c :: r, rest)

/-- Parse the integer part of a JSON number; the numeric value is irrelevant
to the extractor, which only reads string fields. -/
def jsonNum (s : Str) : Option (Int × Str) :=
  let (neg, s1) :=
    match s with
    | '-' :: r => (true, r)
    | _ => (false, s)
  let ds := s1.takeWhile Char.isDigit
  if ds.isEmpty then none
  else
    let n : Int := Int.ofNat (ds.foldl (fun n c => n * 10 + (c.toNat - 48)) 0)
    some (if neg then -n else n, s1.dropWhile Char.isDigit)

/-- Parse an optional JSON fraction part. -/
def jsonFrac (s : Str) : Option Str :=
  match s with
  | '.' :: r =>
    let ds := r.takeWhile Char.isDigit
    if ds.isEmpty then none else some (r.dropWhile Char.isDigit)
  | _ => some s

/-- Parse the mandatory digits of a JSON exponent. -/
def jsonExpTail (s : Str) : Option Str :=
  let s1 :=
    match s with
    | '+' :: r => r
    | '-' :: r => r
    | _ => s
  let ds := s1.takeWhile Char.isDigit
  if ds.isEmpty then none else some (s1.dropWhile Char.isDigit)

/-- Parse an optional JSON exponent part. -/
def jsonExp (s : Str) : Option Str :=
  match s with
  | 'e' :: r => jsonExpTail r
  | 'E' :: r => jsonExpTail r
  | _ => some s

mutual

/-- Parse one JSON value. -/
def jsonVal : Nat → Str → Option (Json × Str)
  | 0, _ => none
  | fuel + 1, s =>
    match s with
    | [] => none
    | c :: cs =>
      if c == 'n' then (dropLit ("ull".data) cs).map (fun r => (Json.jnull, r))
      else if c == 't' then (dropLit ("rue".data) cs).map (fun r => (Json.jbool true, r))
      else if c == 'f' then (dropLit ("alse".data) cs).map (fun r => (Json.jbool false, r))
      else if c == '"' then (jsonStrGo cs).map (fun p => (Json.jstr p.1, p.2))
      else if c == '[' then jsonArr fuel (skipWsJ cs)
      else if c == '\x7b' then jsonObj fuel (skipWsJ cs)
      else
        (jsonNum s).bind (fun p =>
          (jsonFrac p.2).bind (fun s3 =>
            (jsonExp s3).map (fun s4 => (Json.jnum p.1, s4))))

/-- Parse the inside of a JSON array, after the opening bracket and whitespace. -/
def jsonArr : Nat → Str → Option (Json × Str)
  | 0, _ => none
  | fuel + 1, s =>
    match s with
    | ']' :: r => some (Json.jarr [], r)
    | _ => jsonArrGo fuel s []

/-- Parse the comma-separated items of a non-empty JSON array. -/
def jsonArrGo : Nat → Str → List Json → Option (Json × Str)
  | 0, _, _ => none
  | fuel + 1, s, acc => do
    let (v, r) ← jsonVal fuel s
    match skipWsJ r with
    | ',' :: r2 => jsonArrGo fuel (skipWsJ r2) (acc ++ [v])
    | ']' :: r2 => some (Json.jarr (acc ++ [v]), r2)
    | _ => none

/-- Parse the inside of a JSON object, after the opening brace and whitespace. -/
def jsonObj : Nat → Str → Option (Json × Str)
  | 0, _ => none
  | fuel + 1, s =>
    match s with
    | '\x7d' :: r => some (Json.jobj [], r)
    | _ => jsonObjGo fuel s []

/-- Parse the comma-separated members of a non-empty JSON object;
a duplicate key keeps the last value, as `serde_json` does. -/
def jsonObjGo : Nat → Str → List (Str × Json) → Option (Json × Str)
  | 0, _, _ => none
  | fuel + 1, s, acc =>
    match s with
    | '"' :: cs => do
      let (key, r) ← jsonStrGo cs
      match skipWsJ r with
      | ':' :: r2 => do
        let (v, r3) ← jsonVal fuel (skipWsJ r2)
        match skipWsJ r3 with
        | ',' :: r4 => jsonObjGo fuel (skipWsJ r4) (mapInsert key v acc)
        | '\x7d' :: r4 => some (Json.jobj (mapInsert key v acc), r4)
        | _ => none
      | _ => none
    | _ => none

end

/-- Rust `serde_json::from_str::<Value>`: parse a complete value with only
trailing whitespace allowed. -/
def jsonFromStr (s : Str) : Option Json := do
  let (v, rest) ← jsonVal (2 * s.length + 8) (skipWsJ s)
  if (skipWsJ rest).isEmpty then pure v else none

/-- `serde_json` value indexing `pkg["key"]` (null off an object or a missing
key). -/
def jIndexStr (j : Json) (k : Str) : Json :=
  match j with
  | .jobj ms => (alLookup k ms).getD .jnull
  | _ => .jnull

/-- `Value::as_str().unwrap_or(d)`. -/
def jAsStrOr (j : Json) (d : Str) : Str :=
  match j with
  | .jstr s => s
  | _ => d

/-- The manifest-reading block of `extract_package` (lines 53-65): when
`package.json` exists, a read failure or a `serde_json` parse failure is
propagated by `?` (here: `none`); defaults apply only when the file is
absent. -/
def readManifest (fs : FS) (path : Str) : Option (Str × Str × Str) :=
  if fsExists fs (pathJoin path ("package.json".data)) then do
    let content ← fsRead fs (pathJoin path ("package.json".data))
    let pkg ← jsonFromStr content
    pure (jAsStrOr (jIndexStr pkg ("name".data)) ("unknown".data),
          jAsStrOr (jIndexStr pkg ("version".data)) ("0.0.0".data),
          jAsStrOr (jIndexStr pkg ("description".data)) [])
  else some ("unknown".data, "0.0.0".data, [])

/-! ### Package assembly -/

/-- Kind of package (`PackageKind` in `types.rs`). -/
inductive PackageKind
  | core
  | adapter
  | frontend
  | mobile
deriving DecidableEq, Repr

/-- Per-package configuration (`PackageConfig` in `types.rs`). -/
structure PackageConfig where
  name : Str
  path : Str
  kind : PackageKind
  entry_points : List Str
  exclude : List Str
deriving DecidableEq, Repr

/-- Package model (`Package` in `types.rs`). -/
structure Package where
  name : Str
  version : Str
  description : Str
  path : Str
  kind : PackageKind
  internal_deps : List Str
  exports : List Export
deriving DecidableEq, Repr

/-- Extraction result (`ExtractedDocs` in `types.rs`); the `files` HashMap is
kept in insertion order, and its random iteration order is supplied
separately wherever the Rust code iterates it. -/
structure ExtractedDocs where
  package : Package
  files : List (Str × List Export)
  readme : Option Str
  changelog : Option Str
deriving DecidableEq, Repr

/-- One step of the entry-point loop of `extract_package` (lines 23-29): an
existing entry point is scanned and always inserted, even with zero exports. -/
def entryStep (fs : FS) (path : Str) (files : List (Str × List Export)) (ep : Str) :
    Option (List (Str × List Export)) :=
  if fsExists fs (pathJoin path ep) then do
    let exps ← extract_file fs (pathJoin path ep)
    pure (mapInsert (pathJoin path ep) exps files)
  else pure files

/-- The entry-point loop of `extract_package`. -/
def entryFiles (fs : FS) (path : Str) (eps : List Str) :
    Option (List (Str × List Export)) :=
  eps.foldlM (entryStep fs path) []

/-- One step of the source-tree walk of `extract_package` (lines 34-50): a
file not already scanned is inserted only when its scan found exports. -/
def walkStep (fs : FS) (exclude : List Str) (files : List (Str × List Export))
    (fp : Str) : Option (List (Str × List Export)) :=
  if hasTsExt fp && !is_excluded fp exclude then
    if (alLookup fp files).isNone then do
      let exps ← extract_file fs fp
      pure (if exps.isEmpty then files else mapInsert fp exps files)
    else pure files
  else pure files

/-- The source-tree walk of `extract_package` (runs only when `src` exists). -/
def srcFiles (fs : FS) (path : Str) (config : PackageConfig)
    (files0 : List (Str × List Export)) : Option (List (Str × List Export)) :=
  if dirExists fs (pathJoin path ("src".data)) then
    (walkFiles fs (pathJoin path ("src".data))).foldlM (walkStep fs config.exclude) files0
  else pure files0

/-- The `extract_package` function of `typescript.rs`.  `hashIter` supplies
the iteration order `HashMap::values` uses for the final flattening; a run of
the Rust program draws it from the map's random hash state, so a valid order
is any permutation. -/
def extract_package (fs : FS) (path : Str) (config : PackageConfig)
    (hashIter : List (Str × List Export) → List (Str × List Export)) :
    Option ExtractedDocs := do
  let files0 ← entryFiles fs path config.entry_points
  let files1 ← srcFiles fs path config files0
  let m ← readManifest fs path
  let readme := read_optional_file fs (pathJoin path ("README.md".data))
  let changelog := read_optional_file fs (pathJoin path ("CHANGELOG.md".data))
  pure { package := { name := m.1, version := m.2.1, description := m.2.2,
                      path := path, kind := config.kind, internal_deps := [],
                      exports := (hashIter files1).flatMap (·.2) },
         files := files1, readme := readme, changelog := changelog }

/-- A legitimate `HashMap` iteration order: a permutation of the bindings. -/
def ValidIter (σ : List (Str × List Export) → List (Str × List Export)) : Prop :=
  ∀ l, List.Perm (σ l) l

/-! ### Markdown renderer (`generators/markdown.rs`) -/

/-- The interface exports of a package, as filtered in `markdown.rs`. -/
def ifaceExportsOf (docs : ExtractedDocs) : List Export :=
  docs.package.exports.filter (fun e => e.kind == ExportKind.kInterface)

/-- The type-alias exports of a package, as filtered in `markdown.rs`. -/
def typeExportsOf (docs : ExtractedDocs) : List Export :=
  docs.package.exports.filter (fun e => e.kind == ExportKind.kType)

/-- The function exports of a package, as filtered in `markdown.rs`. -/
def fnExportsOf (docs : ExtractedDocs) : List Export :=
  docs.package.exports.filter (fun e => e.kind == ExportKind.kFunction)

/-- The class exports of a package, as filtered in `markdown.rs`. -/
def classExportsOf (docs : ExtractedDocs) : List Export :=
  docs.package.exports.filter (fun e => e.kind == ExportKind.kClass)

/-- The enum exports of a package, as filtered in `markdown.rs`. -/
def enumExportsOf (docs : ExtractedDocs) : List Export :=
  docs.package.exports.filter (fun e => e.kind == ExportKind.kEnum)

/-- The `write_export` block template of `markdown.rs`. -/
def write_export (e : Export) : Str :=
  "### `".data ++ e.name ++ "`\n\n".data
  ++ (match e.deprecated with
      | some d => "> ⚠️ **Deprecated:** ".data ++ d ++ "\n\n".data
      | none => [])
  ++ (match e.description with
      | some d => d ++ "\n\n".data
      | none => [])
  ++ (match e.signature with
      | some sg => "```typescript\n".data ++ sg ++ "\n```\n\n".data
      | none => [])
  ++ "*Defined in [`".data ++ fileNameStr e.source_file ++ "`](".data
     ++ e.source_file ++ ":".data ++ natStr e.line ++ ")*\n\n".data
  ++ (if e.params.isEmpty then []
      else
        "**Parameters:**\n\n".data
        ++ "| Name | Type | Required | Description |\n".data
        ++ "|------|------|----------|-------------|\n".data
        ++ (e.params.flatMap (fun p =>
              "| `".data ++ p.name ++ "` | `".data ++ p.typeAnn ++ "` | ".data
              ++ (if p.optional then "No".data else "Yes".data) ++ " | ".data
              ++ (p.description.getD ("-".data)) ++ " |\n".data))
        ++ "\n".data)
  ++ (match e.returns with
      | some r => "**Returns:** `".data ++ r ++ "`\n\n".data
      | none => [])
  ++ (if e.examples.isEmpty then []
      else
        "**Example:**\n\n".data
        ++ (e.examples.flatMap (fun ex =>
              "```typescript\n".data ++ ex ++ "\n```\n\n".data)))
  ++ "---\n\n".data

/-- The `skip_duplicate_heading` helper of `markdown.rs`: the first line of
the README (whatever it is) is dropped when, after removing leading `#`
characters and trimming, it contains the package name or is contained in it. -/
def skip_duplicate_heading (readme package_name : Str) : Str :=
  match (rustLines readme).head? with
  | some first_line =>
    if strHasSub (trimStr (first_line.dropWhile (· == '#'))) package_name
        || strHasSub package_name (trimStr (first_line.dropWhile (· == '#'))) then
      trimStartStr (joinNl ((rustLines readme).drop 1))
    else readme
  | none => readme

/-- The part of `generate_package_index` before the documentation links:
title, description, version, installation block, export-count table and the
`## Documentation` heading (lines 114-162 of `markdown.rs`). -/
def idxHead (docs : ExtractedDocs) : Str :=
  "# ".data ++ docs.package.name ++ "\n\n".data
  ++ (if docs.package.description.isEmpty then []
      else docs.package.description ++ "\n\n".data)
  ++ "**Version:** ".data ++ docs.package.version ++ "\n\n".data
  ++ "## Installation\n\n".data
  ++ "```bash\n".data
  ++ "npm install ".data ++ docs.package.name ++ "\n".data
  ++ "# or\n".data
  ++ "pnpm add ".data ++ docs.package.name ++ "\n".data
  ++ "```\n\n".data
  ++ "## Exports\n\n".data
  ++ "| Category | Count |\n".data
  ++ "|----------|-------|\n".data
  ++ (if (ifaceExportsOf docs).isEmpty then []
      else "| Interfaces | ".data ++ natStr (ifaceExportsOf docs).length ++ " |\n".data)
  ++ (if (typeExportsOf docs).isEmpty then []
      else "| Types | ".data ++ natStr (typeExportsOf docs).length ++ " |\n".data)
  ++ (if (fnExportsOf docs).isEmpty then []
      else "| Functions | ".data ++ natStr (fnExportsOf docs).length ++ " |\n".data)
  ++ (if (classExportsOf docs).isEmpty then []
      else "| Classes | ".data ++ natStr (classExportsOf docs).length ++ " |\n".data)
  ++ "\n".data
  ++ "## Documentation\n\n".data

/-- The part of `generate_package_index` after the documentation links: the
closing newline of the links section and the optional README appendix
(lines 167-175 of `markdown.rs`). -/
def idxTail (docs : ExtractedDocs) : Str :=
  "\n".data
  ++ (match docs.readme with
      | some readme =>
        "---\n\n".data ++ skip_duplicate_heading readme docs.package.name
      | none => [])

/-- The `generate_package_index` function of `markdown.rs` (its `Result` is
always `Ok`, so it is modelled as pure): the sequence of `push_str` calls is
the concatenation of the head, the types link, the conditional functions
link, and the tail. -/
def generate_package_index (docs : ExtractedDocs) : Str :=
  idxHead docs
  ++ "- [Types Reference](./types.md)\n".data
  ++ (if (fnExportsOf docs).isEmpty then []
      else "- [Functions Reference](./functions.md)\n".data)
  ++ idxTail docs

/-- The `generate_types_doc` function of `markdown.rs`. -/
def generate_types_doc (docs : ExtractedDocs) : Str :=
  "# ".data ++ docs.package.name ++ " - Types\n\n".data
  ++ (if (ifaceExportsOf docs).isEmpty then []
      else "## Interfaces\n\n".data ++ (ifaceExportsOf docs).flatMap write_export)
  ++ (if (typeExportsOf docs).isEmpty then []
      else "## Type Aliases\n\n".data ++ (typeExportsOf docs).flatMap write_export)
  ++ (if (enumExportsOf docs).isEmpty then []
      else "## Enums\n\n".data ++ (enumExportsOf docs).flatMap write_export)
  ++ (if (classExportsOf docs).isEmpty then []
      else "## Classes\n\n".data ++ (classExportsOf docs).flatMap write_export)

/-- The `generate_functions_doc` function of `markdown.rs`. -/
def generate_functions_doc (functions : List Export) (package_name : Str) : Str :=
  "# ".data ++ package_name ++ " - Functions\n\n".data
  ++ functions.flatMap write_export

/-- The `generate_package_docs` function of `markdown.rs`, as the list of
(file name, content) pairs it writes into the package's output directory:
`index.md` always, `types.md` when there is any export, `functions.md` when
there is a function export. -/
def generate_package_docs (docs : ExtractedDocs) : List (Str × Str) :=
  [("index.md".data, generate_package_index docs)]
  ++ (if docs.package.exports.isEmpty then []
      else [("types.md".data, generate_types_doc docs)])
  ++ (if (fnExportsOf docs).isEmpty then []
      else [("functions.md".data,
             generate_functions_doc (fnExportsOf docs) docs.package.name)])

/-! ### Generic helper lemmas -/

theorem optionMapM_forall2 {α β : Type} {f : α → Option β} :
    ∀ {l : List α} {ys : List β}, l.mapM f = some ys →
      List.Forall₂ (fun x y => f x = some y) l ys := by
  intro l
  induction l with
  | nil =>
    intro ys h
    simp only [← List.mapM'_eq_mapM, List.mapM'_nil, pure] at h
    cases h
    exact .nil
  | cons a l ih =>
    intro ys h
    simp only [← List.mapM'_eq_mapM, List.mapM'_cons, bind, pure,
      Option.bind_eq_some] at h
    obtain ⟨y, hy, ys', hys', heq⟩ := h
    injection heq with heq
    subst heq
    rw [List.mapM'_eq_mapM] at hys'
    exact .cons hy (ih hys')

theorem forall2_mem_right {α β : Type} {S : α → β → Prop} :
    ∀ {l : List α} {ys : List β}, List.Forall₂ S l ys →
      ∀ y ∈ ys, ∃ x ∈ l, S x y := by
  intro l ys h
  induction h with
  | nil => intro y hy; cases hy
  | cons hxy _ ih =>
    intro y hy
    rcases List.mem_cons.mp hy with rfl | hy
    · exact ⟨_, List.mem_cons_self .., hxy⟩
    · obtain ⟨x, hx, hS⟩ := ih _ hy
      exact ⟨x, List.mem_cons_of_mem _ hx, hS⟩

theorem forall2_pairwise {α β : Type} {S : α → β → Prop}
    {R : α → α → Prop} {R' : β → β → Prop}
    (hRS : ∀ x x' y y', S x y → S x' y' → R x x' → R' y y') :
    ∀ {l : List α} {ys : List β}, List.Forall₂ S l ys →
      l.Pairwise R → ys.Pairwise R' := by
  intro l ys h
  induction h with
  | nil => intro _; exact .nil
  | cons hxy hF ih =>
    intro hp
    rcases hp with - | ⟨hhead, htail⟩
    refine .cons ?_ (ih htail)
    intro y' hy'
    obtain ⟨x', hx', hS'⟩ := forall2_mem_right hF y' hy'
    exact hRS _ _ _ _ hxy hS' (hhead x' hx')

theorem pairwise_and_of_mem {α : Type} {R : α → α → Prop} {P : α → Prop} :
    ∀ {l : List α}, l.Pairwise R → (∀ x ∈ l, P x) →
      l.Pairwise (fun a b => R a b ∧ P b) := by
  intro l hp
  induction hp with
  | nil => intro _; exact .nil
  | cons hhead _ ih =>
    intro hP
    refine .cons (fun b hb => ⟨hhead b hb, hP b (List.mem_cons_of_mem _ hb)⟩) ?_
    exact ih (fun x hx => hP x (List.mem_cons_of_mem _ hx))

/-! ### Scanner invariants -/

theorem scanGo_lb {α : Type} {m : Str → Option (α × Str)} :
    ∀ {fuel pos atLS s} x, x ∈ scanGo m fuel pos atLS s → pos ≤ x.1 := by
  intro fuel
  induction fuel with
  | zero => intro pos atLS s x hx; simp [scanGo] at hx
  | succ n ih =>
    intro pos atLS s x hx
    match s with
    | [] => simp [scanGo] at hx
    | c :: cs =>
      rw [scanGo] at hx
      split at hx
      · split at hx
        · split at hx
          · exact Nat.le_trans (Nat.le_succ pos) (ih x hx)
          · rcases List.mem_cons.mp hx with rfl | hx
            · exact Nat.le_refl _
            · exact Nat.le_trans (Nat.le_add_right ..) (ih x hx)
        · exact Nat.le_trans (Nat.le_succ pos) (ih x hx)
      · exact Nat.le_trans (Nat.le_succ pos) (ih x hx)

theorem scanGo_pairwise {α : Type} {m : Str → Option (α × Str)} :
    ∀ {fuel pos atLS s},
      (scanGo m fuel pos atLS s).Pairwise (fun a b => a.1 < b.1) := by
  intro fuel
  induction fuel with
  | zero => intro pos atLS s; simp [scanGo]
  | succ n ih =>
    intro pos atLS s
    match s with
    | [] => simp [scanGo]
    | c :: cs =>
      rw [scanGo]
      split
      · split
        · rename_i a rest hm
          split
          · exact ih
          · rename_i hk
            refine .cons (fun b hb => ?_) ih
            have hpos := scanGo_lb b hb
            have hk1 : 0 < (c :: cs).length - rest.length := Nat.pos_of_ne_zero hk
            show pos < b.1
            omega
        · exact ih
      · exact ih

theorem scanGo_mem_match {α : Type} {m : Str → Option (α × Str)} :
    ∀ {fuel pos atLS s} x, x ∈ scanGo m fuel pos atLS s →
      ∃ s' r, m s' = some (x.2, r) := by
  intro fuel
  induction fuel with
  | zero => intro pos atLS s x hx; simp [scanGo] at hx
  | succ n ih =>
    intro pos atLS s x hx
    match s with
    | [] => simp [scanGo] at hx
    | c :: cs =>
      rw [scanGo] at hx
      split at hx
      · split at hx
        · rename_i a rest hm
          split at hx
          · exact ih x hx
          · rcases List.mem_cons.mp hx with rfl | hx
            · exact ⟨c :: cs, rest, hm⟩
            · exact ih x hx
        · exact ih x hx
      · exact ih x hx

/-- Positions where the multiline anchor `^` holds. -/
def LineStartAt (content : Str) (p : Nat) : Prop :=
  p = 0 ∨ nlAt content (p - 1) = true

theorem nlAt_drop (l : Str) (p i : Nat) : nlAt (l.drop p) i = nlAt l (p + i) := by
  unfold nlAt
  rw [List.drop_drop]

theorem scanGo_lineStart {α : Type} {m : Str → Option (α × Str)} {content : Str} :
    ∀ {fuel pos atLS s},
      s = content.drop pos → (atLS = true → LineStartAt content pos) →
      ∀ x ∈ scanGo m fuel pos atLS s, LineStartAt content x.1 := by
  intro fuel
  induction fuel with
  | zero => intro pos atLS s _ _ x hx; simp [scanGo] at hx
  | succ n ih =>
    intro pos atLS s hs hLS x hx
    match s with
    | [] => simp [scanGo] at hx
    | c :: cs =>
      have hdropSucc : cs = content.drop (pos + 1) := by
        have h1 : (content.drop pos).drop 1 = content.drop (pos + 1) := by
          rw [List.drop_drop]
        rw [← h1, ← hs]
        rfl
      have hnlSucc : (c == '\n') = true → LineStartAt content (pos + 1) := by
        intro hc
        right
        show nlAt content (pos + 1 - 1) = true
        have hpp : nlAt content pos = true := by
          unfold nlAt
          rw [← hs]
          exact hc
        simpa using hpp
      rw [scanGo] at hx
      split at hx
      · rename_i hatLS
        split at hx
        · rename_i a rest hm
          split at hx
          · exact ih hdropSucc hnlSucc x hx
          · rename_i hk
            rcases List.mem_cons.mp hx with rfl | hx
            · exact hLS hatLS
            · have hk1 : 1 ≤ (c :: cs).length - rest.length := Nat.pos_of_ne_zero hk
              refine ih ?_ ?_ x hx
              · rw [hs, List.drop_drop]
              · intro hnl
                right
                have hstep : nlAt content (pos + ((c :: cs).length - rest.length - 1)) = true := by
                  rw [← nlAt_drop, ← hs]
                  exact hnl
                have harith : pos + ((c :: cs).length - rest.length - 1)
                    = pos + ((c :: cs).length - rest.length) - 1 := by omega
                rw [harith] at hstep
                exact hstep
        · exact ih hdropSucc hnlSucc x hx
      · exact ih hdropSucc hnlSucc x hx

theorem scanRe_lineStart {α : Type} {m : Str → Option (α × Str)} {content : Str} :
    ∀ x ∈ scanRe m content, LineStartAt content x.1 :=
  scanGo_lineStart (by simp) (fun _ => Or.inl rfl)

/-! ### Line counting -/

theorem take_succ_of_drop {α : Type} :
    ∀ (q : Nat) (l : List α) (x : α) (xs : List α), l.drop q = x :: xs →
      l.take (q + 1) = l.take q ++ [x] := by
  intro q
  induction q with
  | zero =>
    intro l x xs h
    simp at h
    rw [h]
    rfl
  | succ n ih =>
    intro l x xs h
    match l with
    | [] => simp at h
    | y :: ys =>
      have := ih ys x xs (by simpa using h)
      simp [List.take_succ_cons, this]

theorem count_lines_mono {c : Str} {p q : Nat} (hpq : p ≤ q) :
    count_lines (c.take p) ≤ count_lines (c.take q) := by
  have h1 : c.take p = (c.take q).take p := by
    rw [List.take_take, Nat.min_eq_left hpq]
  rw [count_lines, count_lines, h1]
  exact (List.take_sublist _ _).count_le _

theorem count_lines_lt {c : Str} {p q : Nat} (hpq : p ≤ q)
    (hnl : nlAt c q = true) :
    count_lines (c.take p) < count_lines (c.take (q + 1)) := by
  unfold nlAt at hnl
  split at hnl
  · rename_i x xs hdq
    have hx : x = '\n' := by simpa using hnl
    subst hx
    have htk := take_succ_of_drop q c _ _ hdq
    have : count_lines (c.take (q + 1)) = count_lines (c.take q) + 1 := by
      rw [htk, count_lines, count_lines, List.count_append]
      simp [List.count_cons]
    rw [this]
    exact Nat.lt_succ_of_le (count_lines_mono hpq)
  · cases hnl

/-! ### Matcher and pass lemmas -/

theorem isEmpty_false_ne {α : Type} {l : List α} (h : l.isEmpty = false) : l ≠ [] := by
  cases l with
  | nil => cases h
  | cons a l => exact List.cons_ne_nil a l

theorem takeWord1_ne {s w r : Str} (h : takeWord1 s = some (w, r)) : w ≠ [] := by
  unfold takeWord1 at h
  split at h
  · cases h
  · rename_i hne
    injection h with h
    injection h with h1 _
    subst h1
    exact isEmpty_false_ne (Bool.eq_false_iff.mpr hne)

theorem jsdocBody_some {α : Type} {cont : Str → Option α} {a : α} :
    ∀ {s}, jsdocBody cont s = some a → ∃ s', cont s' = some a := by
  intro s
  induction s with
  | nil => intro h; simp [jsdocBody] at h
  | cons c cs ih =>
    intro h
    rw [jsdocBody] at h
    split at h
    · split at h
      · rename_i hc
        injection h with h
        subst h
        exact ⟨_, hc⟩
      · exact ih h
    · exact ih h

theorem tryJsdocPre_some {α : Type} {cont : Str → Option α} {s : Str} {a : α}
    (h : tryJsdocPre cont s = some a) : ∃ s', cont s' = some a := by
  unfold tryJsdocPre at h
  split at h
  · split at h
    · rename_i hb
      injection h with h
      subst h
      exact jsdocBody_some hb
    · exact ⟨s, h⟩
  · exact ⟨s, h⟩

theorem ifaceTail_name {s : Str} {cb : Str × Str} {r : Str}
    (h : ifaceTail s = some (cb, r)) : cb.1 ≠ [] := by
  simp only [ifaceTail, bind, Option.bind_eq_some] at h
  obtain ⟨s2, -, s3, -, s4, -, s5, -, ⟨name, s6⟩, hw, s9, -, s11, -, h⟩ := h
  injection h with h
  injection h with h1 h2
  subst h1
  simpa using takeWord1_ne hw

theorem typeTail_name {s : Str} {cb : Str × Str} {r : Str}
    (h : typeTail s = some (cb, r)) : cb.1 ≠ [] := by
  simp only [typeTail, bind, Option.bind_eq_some] at h
  obtain ⟨s2, -, s3, -, s4, -, s5, -, ⟨name, s6⟩, hw, s9, -, ⟨rhs, s10⟩, -, h⟩ := h
  injection h with h
  injection h with h1 h2
  subst h1
  simpa using takeWord1_ne hw

theorem fnTail_name {s : Str} {cb : Str × Str × Option Str} {r : Str}
    (h : fnTail s = some (cb, r)) : cb.1 ≠ [] := by
  simp only [fnTail, bind, Option.bind_eq_some] at h
  obtain ⟨s2, -, s3, -, s5, -, s6, -, ⟨name, s7⟩, hw, s11, -, s13, -, h⟩ := h
  split at h
  · injection h with h
    injection h with h1 h2
    subst h1
    simpa using takeWord1_ne hw
  · rw [Option.bind_eq_some] at h
    obtain ⟨s16, -, h⟩ := h
    injection h with h
    injection h with h1 h2
    subst h1
    simpa using takeWord1_ne hw

theorem constTail_name {s : Str} {cb : Str × Option Str} {r : Str}
    (h : constTail s = some (cb, r)) : cb.1 ≠ [] := by
  simp only [constTail, bind, Option.bind_eq_some] at h
  obtain ⟨s2, -, s3, -, s4, -, s5, -, ⟨name, s6⟩, hw, h⟩ := h
  split at h
  · injection h with h
    injection h with h1 h2
    subst h1
    simpa using takeWord1_ne hw
  · rw [Option.bind_eq_some] at h
    obtain ⟨s9, -, h⟩ := h
    injection h with h
    injection h with h1 h2
    subst h1
    simpa using takeWord1_ne hw

theorem classTail_name {s : Str} {cb : Str} {r : Str}
    (h : classTail s = some (cb, r)) : cb ≠ [] := by
  simp only [classTail, bind, Option.bind_eq_some] at h
  obtain ⟨s2, -, s3, -, s4, -, s5, -, ⟨name, s6⟩, hw, s11, -, h⟩ := h
  injection h with h
  injection h with h1 h2
  subst h1
  simpa using takeWord1_ne hw

theorem enumTail_name {s : Str} {cb : Str} {r : Str}
    (h : enumTail s = some (cb, r)) : cb ≠ [] := by
  simp only [enumTail, bind, Option.bind_eq_some] at h
  obtain ⟨s2, -, s3, -, s5, -, s6, -, ⟨name, s7⟩, hw, s9, -, h⟩ := h
  injection h with h
  injection h with h1 h2
  subst h1
  simpa using takeWord1_ne hw

theorem mkIface_inv {c path : Str} {pa : Nat × (Str × Str)} {e : Export}
    (h : mkIface c path pa = some e) :
    e.name = pa.2.1 ∧ e.kind = .kInterface ∧ e.source_file = path ∧
      e.line = count_lines (c.take pa.1) + 1 := by
  simp only [mkIface, bind, Option.bind_eq_some, pure] at h
  obtain ⟨j, _, heq⟩ := h
  injection heq with heq
  subst heq
  exact ⟨rfl, rfl, rfl, rfl⟩

theorem mkType_inv {c path : Str} {pa : Nat × (Str × Str)} {e : Export}
    (h : mkType c path pa = some e) :
    e.name = pa.2.1 ∧ e.kind = .kType ∧ e.source_file = path ∧
      e.line = count_lines (c.take pa.1) + 1 := by
  simp only [mkType, bind, Option.bind_eq_some, pure] at h
  obtain ⟨j, _, heq⟩ := h
  injection heq with heq
  subst heq
  exact ⟨rfl, rfl, rfl, rfl⟩

theorem mkFn_inv {c path : Str} {pa : Nat × (Str × Str × Option Str)} {e : Export}
    (h : mkFn c path pa = some e) :
    e.name = pa.2.1 ∧ e.kind = .kFunction ∧ e.source_file = path ∧
      e.line = count_lines (c.take pa.1) + 1 := by
  simp only [mkFn, bind, Option.bind_eq_some, pure] at h
  obtain ⟨j, _, heq⟩ := h
  injection heq with heq
  subst heq
  exact ⟨rfl, rfl, rfl, rfl⟩

theorem mkConst_inv {c path : Str} {pa : Nat × (Str × Option Str)} {e : Export}
    (h : mkConst c path pa = some e) :
    e.name = pa.2.1 ∧ e.kind = .kConst ∧ e.source_file = path ∧
      e.line = count_lines (c.take pa.1) + 1 := by
  simp only [mkConst, bind, Option.bind_eq_some, pure] at h
  obtain ⟨j, _, heq⟩ := h
  injection heq with heq
  subst heq
  exact ⟨rfl, rfl, rfl, rfl⟩

theorem mkClass_inv {c path : Str} {pa : Nat × Str} {e : Export}
    (h : mkClass c path pa = some e) :
    e.name = pa.2 ∧ e.kind = .kClass ∧ e.source_file = path ∧
      e.line = count_lines (c.take pa.1) + 1 := by
  simp only [mkClass, bind, Option.bind_eq_some, pure] at h
  obtain ⟨j, _, heq⟩ := h
  injection heq with heq
  subst heq
  exact ⟨rfl, rfl, rfl, rfl⟩

theorem mkEnum_inv {c path : Str} {pa : Nat × Str} {e : Export}
    (h : mkEnum c path pa = some e) :
    e.name = pa.2 ∧ e.kind = .kEnum ∧ e.source_file = path ∧
      e.line = count_lines (c.take pa.1) + 1 := by
  simp only [mkEnum, bind, Option.bind_eq_some, pure] at h
  obtain ⟨j, _, heq⟩ := h
  injection heq with heq
  subst heq
  exact ⟨rfl, rfl, rfl, rfl⟩

theorem pass_line_pairwise {γ : Type} {mk : Nat × γ → Option Export}
    {mm : Str → Option (γ × Str)} {c : Str} {es : List Export}
    (h : (scanRe mm c).mapM mk = some es)
    (hline : ∀ pos a e, mk (pos, a) = some e → e.line = count_lines (c.take pos) + 1) :
    es.Pairwise (fun e₁ e₂ => e₁.line < e₂.line) := by
  have hF := optionMapM_forall2 h
  have hpw : (scanRe mm c).Pairwise (fun a b => a.1 < b.1 ∧ LineStartAt c b.1) :=
    pairwise_and_of_mem scanGo_pairwise scanRe_lineStart
  refine forall2_pairwise ?_ hF hpw
  rintro x x' e e' hS hS' ⟨hlt, hls⟩
  have h1 : e.line = count_lines (c.take x.1) + 1 :=
    hline x.1 x.2 e (by rwa [Prod.mk.eta])
  have h2 : e'.line = count_lines (c.take x'.1) + 1 :=
    hline x'.1 x'.2 e' (by rwa [Prod.mk.eta])
  rw [h1, h2]
  rcases hls with h0 | hnl
  · omega
  · have hx1 : x.1 ≤ x'.1 - 1 := by omega
    have := count_lines_lt hx1 hnl
    have hsucc : x'.1 - 1 + 1 = x'.1 := by omega
    rw [hsucc] at this
    omega

theorem pass_mem_prop {γ : Type} {mk : Nat × γ → Option Export}
    {mm : Str → Option (γ × Str)} {c : Str} {es : List Export}
    (h : (scanRe mm c).mapM mk = some es) {P : Export → Prop}
    (hP : ∀ pos a e, mk (pos, a) = some e →
      (∃ s' r, mm s' = some (a, r)) → P e) :
    ∀ e ∈ es, P e := by
  have hF := optionMapM_forall2 h
  intro e he
  obtain ⟨x, hx, hS⟩ := forall2_mem_right hF e he
  have hm := scanGo_mem_match x hx
  exact hP x.1 x.2 e (by rwa [Prod.mk.eta]) hm

/-! ### Whitespace-backtracking regressions

The regex engine backtracks a greedy `\s*`/`\s+` one character into a
required `[^x]+` capture when maximal munch would leave it empty; the four
evaluations below pin the matchers to that behaviour (single-whitespace
captures), together with the neighbouring inputs that have no whitespace to
give back and correctly fail. -/

theorem matchType_ws_backtrack_eval :
    scanRe matchType ("export type A =  ;").data = [(0, ("A".data, " ".data))] ∧
    scanRe matchType ("export type A =;").data = [] := by
  refine ⟨by decide, by decide⟩

theorem matchFn_ws_backtrack_eval :
    scanRe matchFn ("export function f(): \x7b").data =
      [(0, ("f".data, [], some (" ".data)))] ∧
    scanRe matchFn ("export function f():\x7b").data = [] := by
  refine ⟨by decide, by decide⟩

theorem matchConst_ws_backtrack_eval :
    scanRe matchConst ("export const x : = 1").data =
      [(0, ("x".data, some (" ".data)))] ∧
    scanRe matchConst ("export const x :=1").data = [] := by
  refine ⟨by decide, by decide⟩

theorem matchClass_ws_backtrack_eval :
    scanRe matchClass ("export class A extends  \x7b").data = [(0, "A".data)] ∧
    scanRe matchClass ("export class A extends \x7b").data = [] := by
  refine ⟨by decide, by decide⟩

/-! ### Claim-side reference definitions -/

/-- The non-empty trimmed comma segments of a raw parameter list, following
the claim's words: "splits on every comma; every non-empty segment …". -/
def claimParamSegs (params_str : Str) : List Str :=
  ((splitOnChar ',' params_str).map trimStr).filter (fun p => !p.isEmpty)

/-- The parameter the claim describes for one non-empty trimmed segment:
`optional` iff the segment contains the marker, the marker stripped, split at
the first colon, `"unknown"` without a colon, description by exact name. -/
def claimSegParam (jsdoc : JsDoc) (seg : Str) : Parameter :=
  { name := trimStr ((splitFirstChar ':' (seg.filter (· != '?'))).1),
    typeAnn :=
      match (splitFirstChar ':' (seg.filter (· != '?'))).2 with
      | some t => trimStr t
      | none => "unknown".data,
    description := alLookup (trimStr ((splitFirstChar ':' (seg.filter (· != '?'))).1)) jsdoc.params,
    optional := seg.contains '?',
    dflt := none }

/-- The condition under which `skip_duplicate_heading` actually strips the
first README line: after removing leading `#` characters and trimming, the
line contains the package name or is contained in it — whether or not the
line is a heading. -/
def claimStripCond (readme package_name : Str) : Bool :=
  match (rustLines readme).head? with
  | some first_line =>
    strHasSub (trimStr (first_line.dropWhile (· == '#'))) package_name
      || strHasSub package_name (trimStr (first_line.dropWhile (· == '#')))
  | none => false

/-! ### Support lemmas for the parameter-list claim -/

theorem trimStr_all_ws {s : Str} (h : trimStr s = []) :
    ∀ c ∈ s, isWsChar c = true := by
  have hdw : (s.dropWhile isWsChar).reverse.dropWhile isWsChar = [] := by
    have h' := h
    unfold trimStr trimEndStr trimStartStr at h'
    exact List.reverse_eq_nil_iff.mp h'
  have hall : ∀ c ∈ (s.dropWhile isWsChar).reverse, isWsChar c = true := by
    intro c hc
    exact List.dropWhile_eq_nil_iff.mp hdw c hc
  intro c hc
  have hsplit : s.takeWhile isWsChar ++ s.dropWhile isWsChar = s :=
    List.takeWhile_append_dropWhile isWsChar s
  rw [← hsplit] at hc
  rcases List.mem_append.mp hc with hc' | hc'
  · exact List.mem_takeWhile_imp hc'
  · exact hall c (List.mem_reverse.mpr hc')

theorem wsChar_ne_comma {c : Char} (h : isWsChar c = true) : (c == ',') = false := by
  simp only [isWsChar, Bool.or_eq_true, beq_iff_eq] at h
  rcases h with ((((h | h) | h) | h) | h) | h <;> subst h <;> decide

theorem splitOnChar_no_sep {sep : Char} :
    ∀ {s : Str}, (∀ c ∈ s, (c == sep) = false) → splitOnChar sep s = [s] := by
  intro s
  induction s with
  | nil => intro _; rfl
  | cons c cs ih =>
    intro h
    unfold splitOnChar
    rw [h c (List.mem_cons_self ..), ih (fun c' hc' => h c' (List.mem_cons_of_mem _ hc'))]
    simp

theorem parse_params_foldl (jsdoc : JsDoc) :
    ∀ (l : List Str) (acc : List Parameter),
      l.foldl (fun acc seg =>
        let p := trimStr seg
        if p.isEmpty then acc
        else
          let optional := p.contains '?'
          let p := p.filter (· != '?')
          let (n0, t0) := splitFirstChar ':' p
          let name := trimStr n0
          let typeAnn :=
            match t0 with
            | some t => trimStr t
            | none => "unknown".data
          acc ++ [{ name := name, typeAnn := typeAnn,
                    description := alLookup name jsdoc.params,
                    optional := optional, dflt := none }]) acc
      = acc ++ ((l.map trimStr).filter (fun p => !p.isEmpty)).map (claimSegParam jsdoc) := by
  intro l
  induction l with
  | nil => intro acc; simp
  | cons seg l ih =>
    intro acc
    rw [List.foldl_cons, ih, List.map_cons, List.filter_cons]
    by_cases hseg : (trimStr seg).isEmpty = true
    · simp [hseg]
    · have hseg' : (trimStr seg).isEmpty = false := Bool.eq_false_iff.mpr hseg
      simp [hseg', claimSegParam, List.append_assoc]

/-! ### `extract_package` structural lemmas -/

theorem alLookup_mapInsert {β : Type} (k : Str) (v : β) (p : Str) :
    ∀ (m : List (Str × β)),
      alLookup p (mapInsert k v m) = if p = k then some v else alLookup p m := by
  intro m
  induction m with
  | nil =>
    by_cases hpk : p = k
    · subst hpk
      simp [mapInsert, alLookup]
    · have hkp : ¬(k = p) := fun h => hpk h.symm
      simp [mapInsert, alLookup, hpk, hkp]
  | cons hd tl ih =>
    obtain ⟨k', v'⟩ := hd
    by_cases hk : k' = k
    · subst hk
      by_cases hpk : p = k'
      · subst hpk
        simp [mapInsert, alLookup]
      · have hkp : ¬(k' = p) := fun h => hpk h.symm
        simp [mapInsert, alLookup, hpk, hkp]
    · by_cases hp : k' = p
      · subst hp
        have hpk : ¬(k' = k) := hk
        simp [mapInsert, alLookup, hk, hpk]
      · simp [mapInsert, alLookup, hk, hp, ih]

theorem extract_package_inv {fs : FS} {path : Str} {config : PackageConfig}
    {σ : List (Str × List Export) → List (Str × List Export)} {d : ExtractedDocs}
    (h : extract_package fs path config σ = some d) :
    ∃ files0 files1 m,
      entryFiles fs path config.entry_points = some files0 ∧
      srcFiles fs path config files0 = some files1 ∧
      readManifest fs path = some m ∧
      d = { package := { name := m.1, version := m.2.1, description := m.2.2,
                         path := path, kind := config.kind, internal_deps := [],
                         exports := (σ files1).flatMap (·.2) },
            files := files1,
            readme := read_optional_file fs (pathJoin path ("README.md".data)),
            changelog := read_optional_file fs (pathJoin path ("CHANGELOG.md".data)) } := by
  simp only [extract_package, bind, Option.bind_eq_some, pure] at h
  obtain ⟨files0, h0, files1, h1, m, hm, heq⟩ := h
  injection heq with heq
  exact ⟨files0, files1, m, h0, h1, hm, heq.symm⟩

theorem entryFold_preserve {fs : FS} {path : Str} :
    ∀ {eps : List Str} {files out : List (Str × List Export)} {p : Str},
      eps.foldlM (entryStep fs path) files = some out →
      alLookup p files = extract_file fs p →
      alLookup p out = extract_file fs p := by
  intro eps
  induction eps with
  | nil =>
    intro files out p h hp
    simp only [List.foldlM_nil, pure] at h
    injection h with h
    subst h
    exact hp
  | cons ep eps ih =>
    intro files out p h hp
    rw [List.foldlM_cons] at h
    simp only [bind, Option.bind_eq_some] at h
    obtain ⟨files1, hstep, hrest⟩ := h
    refine ih hrest ?_
    unfold entryStep at hstep
    split at hstep
    · simp only [bind, Option.bind_eq_some, pure] at hstep
      obtain ⟨exps, hex, heq⟩ := hstep
      injection heq with heq
      subst heq
      rw [alLookup_mapInsert]
      split
      · rename_i hpe
        rw [hpe, hex]
      · exact hp
    · simp only [pure] at hstep
      injection hstep with hstep
      subst hstep
      exact hp

theorem entryFold_inv {fs : FS} {path : Str} :
    ∀ {eps : List Str} {files out : List (Str × List Export)},
      eps.foldlM (entryStep fs path) files = some out →
      (∀ p v, alLookup p out = some v →
        alLookup p files = some v ∨ ∃ ep ∈ eps, p = pathJoin path ep) ∧
      (∀ ep ∈ eps, fsExists fs (pathJoin path ep) = true →
        ∃ exps, extract_file fs (pathJoin path ep) = some exps ∧
          alLookup (pathJoin path ep) out = some exps) := by
  intro eps
  induction eps with
  | nil =>
    intro files out h
    simp only [List.foldlM_nil, pure] at h
    injection h with h
    subst h
    exact ⟨fun p v hv => Or.inl hv, by simp⟩
  | cons ep eps ih =>
    intro files out h
    rw [List.foldlM_cons] at h
    simp only [bind, Option.bind_eq_some] at h
    obtain ⟨files1, hstep, hrest⟩ := h
    obtain ⟨horig, hpts⟩ := ih hrest
    constructor
    · intro p v hv
      rcases horig p v hv with hv' | ⟨ep', hep', hpe⟩
      · unfold entryStep at hstep
        split at hstep
        · simp only [bind, Option.bind_eq_some, pure] at hstep
          obtain ⟨exps, hex, heq⟩ := hstep
          injection heq with heq
          subst heq
          rw [alLookup_mapInsert] at hv'
          split at hv'
          · rename_i hpe
            exact Or.inr ⟨ep, List.mem_cons_self .., hpe⟩
          · exact Or.inl hv'
        · simp only [pure] at hstep
          injection hstep with hstep
          subst hstep
          exact Or.inl hv'
      · exact Or.inr ⟨ep', List.mem_cons_of_mem _ hep', hpe⟩
    · intro ep' hep' hex'
      rcases List.mem_cons.mp hep' with rfl | hep'
      · unfold entryStep at hstep
        rw [if_pos hex'] at hstep
        simp only [bind, Option.bind_eq_some, pure] at hstep
        obtain ⟨exps, hex, heq⟩ := hstep
        injection heq with heq
        subst heq
        refine ⟨exps, hex, ?_⟩
        have hlook : alLookup (pathJoin path ep') (mapInsert (pathJoin path ep') exps files)
            = extract_file fs (pathJoin path ep') := by
          rw [alLookup_mapInsert, if_pos rfl, hex]
        rw [entryFold_preserve hrest hlook, hex]
      · exact hpts ep' hep' hex'

theorem walkFold_preserve {fs : FS} {exclude : List Str} :
    ∀ {fps : List Str} {files out : List (Str × List Export)} {p : Str} {v : List Export},
      fps.foldlM (walkStep fs exclude) files = some out →
      alLookup p files = some v → alLookup p out = some v := by
  intro fps
  induction fps with
  | nil =>
    intro files out p v h hp
    simp only [List.foldlM_nil, pure] at h
    injection h with h
    subst h
    exact hp
  | cons fp fps ih =>
    intro files out p v h hp
    rw [List.foldlM_cons] at h
    simp only [bind, Option.bind_eq_some] at h
    obtain ⟨files1, hstep, hrest⟩ := h
    refine ih hrest ?_
    unfold walkStep at hstep
    split at hstep
    · split at hstep
      · rename_i hnone
        simp only [bind, Option.bind_eq_some, pure] at hstep
        obtain ⟨exps, _, heq⟩ := hstep
        injection heq with heq
        subst heq
        split
        · exact hp
        · rw [alLookup_mapInsert]
          split
          · rename_i hpf
            rw [hpf] at hp
            rw [hp] at hnone
            cases hnone
          · exact hp
      · simp only [pure] at hstep
        injection hstep with hstep
        subst hstep
        exact hp
    · simp only [pure] at hstep
      injection hstep with hstep
      subst hstep
      exact hp

theorem walkFold_origin {fs : FS} {exclude : List Str} :
    ∀ {fps : List Str} {files out : List (Str × List Export)} {p : Str} {v : List Export},
      fps.foldlM (walkStep fs exclude) files = some out →
      alLookup p out = some v →
      alLookup p files = some v ∨ v ≠ [] := by
  intro fps
  induction fps with
  | nil =>
    intro files out p v h hp
    simp only [List.foldlM_nil, pure] at h
    injection h with h
    subst h
    exact Or.inl hp
  | cons fp fps ih =>
    intro files out p v h hp
    rw [List.foldlM_cons] at h
    simp only [bind, Option.bind_eq_some] at h
    obtain ⟨files1, hstep, hrest⟩ := h
    rcases ih hrest hp with hv | hne
    · unfold walkStep at hstep
      split at hstep
      · split at hstep
        · simp only [bind, Option.bind_eq_some, pure] at hstep
          obtain ⟨exps, _, heq⟩ := hstep
          injection heq with heq
          subst heq
          split at hv
          · exact Or.inl hv
          · rename_i hne'
            rw [alLookup_mapInsert] at hv
            split at hv
            · injection hv with hv
              subst hv
              exact Or.inr (isEmpty_false_ne (Bool.eq_false_iff.mpr hne'))
            · exact Or.inl hv
        · simp only [pure] at hstep
          injection hstep with hstep
          subst hstep
          exact Or.inl hv
      · simp only [pure] at hstep
        injection hstep with hstep
        subst hstep
        exact Or.inl hv
    · exact Or.inr hne

theorem srcFiles_preserve {fs : FS} {path : Str} {config : PackageConfig}
    {files0 files1 : List (Str × List Export)} {p : Str} {v : List Export}
    (h : srcFiles fs path config files0 = some files1)
    (hp : alLookup p files0 = some v) : alLookup p files1 = some v := by
  unfold srcFiles at h
  split at h
  · exact walkFold_preserve h hp
  · simp only [pure] at h
    injection h with h
    subst h
    exact hp

theorem srcFiles_origin {fs : FS} {path : Str} {config : PackageConfig}
    {files0 files1 : List (Str × List Export)} {p : Str} {v : List Export}
    (h : srcFiles fs path config files0 = some files1)
    (hp : alLookup p files1 = some v) :
    alLookup p files0 = some v ∨ v ≠ [] := by
  unfold srcFiles at h
  split at h
  · exact walkFold_origin h hp
  · simp only [pure] at h
    injection h with h
    subst h
    exact Or.inl hp

/-! ### Claim theorems -/

/-- Claim C7: `parse_function_params` splits the raw parameter text on every
comma; every non-empty trimmed segment yields one parameter with `optional`
set iff the segment contains the `?` marker and with the marker stripped from
the name, the segment is split at its first colon, a missing annotation gives
the `"unknown"` sentinel, and the description is looked up by exact name in
the doc comment's parameter map. -/
theorem C7_param_split (s : Str) (jsdoc : JsDoc) :
    parse_function_params s jsdoc = (claimParamSegs s).map (claimSegParam jsdoc) := by
  unfold parse_function_params claimParamSegs
  split
  · rename_i hempty
    have hnil : trimStr s = [] := by
      cases htr : trimStr s with
      | nil => rfl
      | cons a l => rw [htr] at hempty; simp at hempty
    have hsplit : splitOnChar ',' s = [s] :=
      splitOnChar_no_sep (fun c hc => wsChar_ne_comma (trimStr_all_ws hnil c hc))
    rw [hsplit]
    simp [hnil]
  · rw [parse_params_foldl]
    simp

/-- Claim C8 (supporting statement): the list returned by `extract_file` is
exactly the concatenation of the six per-kind passes in the fixed source
order interface, type, function, const, class, enum; each pass's records
carry the matching kind and strictly increasing line numbers (textual
appearance order), and the concatenation is not re-sorted. -/
theorem C8_pass_order (fs : FS) (path : Str) (es : List Export) (c : Str)
    (li lt lf lk lcl le : List Export)
    (h : extract_file fs path = some es)
    (hc : fsRead fs path = some c)
    (h1 : ifacePass c path = some li) (h2 : typePass c path = some lt)
    (h3 : fnPass c path = some lf) (h4 : constPass c path = some lk)
    (h5 : classPass c path = some lcl) (h6 : enumPass c path = some le) :
    es = li ++ lt ++ lf ++ lk ++ lcl ++ le ∧
    (∀ e ∈ li, e.kind = .kInterface) ∧ (∀ e ∈ lt, e.kind = .kType) ∧
    (∀ e ∈ lf, e.kind = .kFunction) ∧ (∀ e ∈ lk, e.kind = .kConst) ∧
    (∀ e ∈ lcl, e.kind = .kClass) ∧ (∀ e ∈ le, e.kind = .kEnum) ∧
    li.Pairwise (fun a b => a.line < b.line) ∧
    lt.Pairwise (fun a b => a.line < b.line) ∧
    lf.Pairwise (fun a b => a.line < b.line) ∧
    lk.Pairwise (fun a b => a.line < b.line) ∧
    lcl.Pairwise (fun a b => a.line < b.line) ∧
    le.Pairwise (fun a b => a.line < b.line) := by
  simp only [extract_file, extract_content, bind, Option.bind_eq_some, pure] at h
  obtain ⟨c', hc', li', hi', lt', ht', lf', hf', lk', hk', lcl', hcl', le', he', heq⟩ := h
  rw [hc] at hc'
  injection hc' with hc'
  subst hc'
  rw [h1] at hi'; injection hi' with hi'; subst hi'
  rw [h2] at ht'; injection ht' with ht'; subst ht'
  rw [h3] at hf'; injection hf' with hf'; subst hf'
  rw [h4] at hk'; injection hk' with hk'; subst hk'
  rw [h5] at hcl'; injection hcl' with hcl'; subst hcl'
  rw [h6] at he'; injection he' with he'; subst he'
  injection heq with heq
  subst heq
  unfold ifacePass at h1
  unfold typePass at h2
  unfold fnPass at h3
  unfold constPass at h4
  unfold classPass at h5
  unfold enumPass at h6
  refine ⟨rfl, ?_, ?_, ?_, ?_, ?_, ?_, ?_, ?_, ?_, ?_, ?_, ?_⟩
  · exact pass_mem_prop h1 (fun pos a e hmk _ => (mkIface_inv hmk).2.1)
  · exact pass_mem_prop h2 (fun pos a e hmk _ => (mkType_inv hmk).2.1)
  · exact pass_mem_prop h3 (fun pos a e hmk _ => (mkFn_inv hmk).2.1)
  · exact pass_mem_prop h4 (fun pos a e hmk _ => (mkConst_inv hmk).2.1)
  · exact pass_mem_prop h5 (fun pos a e hmk _ => (mkClass_inv hmk).2.1)
  · exact pass_mem_prop h6 (fun pos a e hmk _ => (mkEnum_inv hmk).2.1)
  · exact pass_line_pairwise h1 (fun pos a e hmk => (mkIface_inv hmk).2.2.2)
  · exact pass_line_pairwise h2 (fun pos a e hmk => (mkType_inv hmk).2.2.2)
  · exact pass_line_pairwise h3 (fun pos a e hmk => (mkFn_inv hmk).2.2.2)
  · exact pass_line_pairwise h4 (fun pos a e hmk => (mkConst_inv hmk).2.2.2)
  · exact pass_line_pairwise h5 (fun pos a e hmk => (mkClass_inv hmk).2.2.2)
  · exact pass_line_pairwise h6 (fun pos a e hmk => (mkEnum_inv hmk).2.2.2)

/-- Claim C9: every export record produced by `extract_file` has a non-empty
name (each pattern requires at least one identifier character), and its
`source_file` field equals the scanned file's path, never rewritten. -/
theorem C9_name_source_invariant (fs : FS) (path : Str) (es : List Export)
    (h : extract_file fs path = some es) :
    ∀ e ∈ es, e.name ≠ [] ∧ e.source_file = path := by
  simp only [extract_file, extract_content, bind, Option.bind_eq_some, pure] at h
  obtain ⟨c, hc, li, hi, lt, ht, lf, hf, lk, hk, lcl, hcl, le, he, heq⟩ := h
  injection heq with heq
  subst heq
  unfold ifacePass at hi
  unfold typePass at ht
  unfold fnPass at hf
  unfold constPass at hk
  unfold classPass at hcl
  unfold enumPass at he
  have pi : ∀ e ∈ li, e.name ≠ [] ∧ e.source_file = path := by
    refine pass_mem_prop hi (fun pos a e hmk hex => ?_)
    obtain ⟨s', r, hm⟩ := hex
    obtain ⟨s'', h''⟩ := tryJsdocPre_some hm
    have hinv := mkIface_inv hmk
    exact ⟨hinv.1 ▸ ifaceTail_name h'', hinv.2.2.1⟩
  have pt : ∀ e ∈ lt, e.name ≠ [] ∧ e.source_file = path := by
    refine pass_mem_prop ht (fun pos a e hmk hex => ?_)
    obtain ⟨s', r, hm⟩ := hex
    obtain ⟨s'', h''⟩ := tryJsdocPre_some hm
    have hinv := mkType_inv hmk
    exact ⟨hinv.1 ▸ typeTail_name h'', hinv.2.2.1⟩
  have pf : ∀ e ∈ lf, e.name ≠ [] ∧ e.source_file = path := by
    refine pass_mem_prop hf (fun pos a e hmk hex => ?_)
    obtain ⟨s', r, hm⟩ := hex
    obtain ⟨s'', h''⟩ := tryJsdocPre_some hm
    have hinv := mkFn_inv hmk
    exact ⟨hinv.1 ▸ fnTail_name h'', hinv.2.2.1⟩
  have pk : ∀ e ∈ lk, e.name ≠ [] ∧ e.source_file = path := by
    refine pass_mem_prop hk (fun pos a e hmk hex => ?_)
    obtain ⟨s', r, hm⟩ := hex
    obtain ⟨s'', h''⟩ := tryJsdocPre_some hm
    have hinv := mkConst_inv hmk
    exact ⟨hinv.1 ▸ constTail_name h'', hinv.2.2.1⟩
  have pc : ∀ e ∈ lcl, e.name ≠ [] ∧ e.source_file = path := by
    refine pass_mem_prop hcl (fun pos a e hmk hex => ?_)
    obtain ⟨s', r, hm⟩ := hex
    obtain ⟨s'', h''⟩ := tryJsdocPre_some hm
    have hinv := mkClass_inv hmk
    exact ⟨hinv.1 ▸ classTail_name h'', hinv.2.2.1⟩
  have pe : ∀ e ∈ le, e.name ≠ [] ∧ e.source_file = path := by
    refine pass_mem_prop he (fun pos a e hmk hex => ?_)
    obtain ⟨s', r, hm⟩ := hex
    obtain ⟨s'', h''⟩ := tryJsdocPre_some hm
    have hinv := mkEnum_inv hmk
    exact ⟨hinv.1 ▸ enumTail_name h'', hinv.2.2.1⟩
  intro e he'
  simp only [List.mem_append] at he'
  rcases he' with ((((h' | h') | h') | h') | h') | h'
  · exact pi e h'
  · exact pt e h'
  · exact pf e h'
  · exact pk e h'
  · exact pc e h'
  · exact pe e h'

/-- Claim C10: an entry-point file that exists is always in the files map,
bound to its scan result even when that result is empty; a binding whose key
is not an entry-point path (hence discovered by the source-tree walk) is
never an empty list. -/
theorem C10_entry_vs_walk (fs : FS) (path : Str) (config : PackageConfig)
    (σ : List (Str × List Export) → List (Str × List Export)) (d : ExtractedDocs)
    (h : extract_package fs path config σ = some d) :
    (∀ ep ∈ config.entry_points, fsExists fs (pathJoin path ep) = true →
      alLookup (pathJoin path ep) d.files = extract_file fs (pathJoin path ep) ∧
      (extract_file fs (pathJoin path ep)).isSome = true) ∧
    (∀ p v, alLookup p d.files = some v →
      (∀ ep ∈ config.entry_points, p ≠ pathJoin path ep) → v ≠ []) := by
  obtain ⟨files0, files1, m, h0, h1, hm, rfl⟩ := extract_package_inv h
  unfold entryFiles at h0
  constructor
  · intro ep hep hex
    obtain ⟨exps, hexps, hlook⟩ := (entryFold_inv h0).2 ep hep hex
    have hl1 := srcFiles_preserve h1 hlook
    constructor
    · show alLookup (pathJoin path ep) files1 = extract_file fs (pathJoin path ep)
      rw [hl1, hexps]
    · rw [hexps]
      rfl
  · intro p v hv hnotep
    have hv1 : alLookup p files1 = some v := hv
    rcases srcFiles_origin h1 hv1 with hv0 | hne
    · rcases (entryFold_inv h0).1 p v hv0 with hnil | ⟨ep, hep, hpe⟩
      · simp [alLookup] at hnil
      · exact absurd hpe (hnotep ep hep)
    · exact hne

/-- Claim C2 (amended): when the package manifest is absent the package
metadata falls back to `"unknown"`, `"0.0.0"` and the empty description; when
the manifest is present but unreadable or malformed, `extract_package` fails
(the read and parse errors are propagated by `?`). -/
theorem C2_manifest_amended (fs : FS) (path : Str) (config : PackageConfig)
    (σ : List (Str × List Export) → List (Str × List Export)) :
    (fsExists fs (pathJoin path ("package.json".data)) = false →
      ∀ d, extract_package fs path config σ = some d →
        d.package.name = "unknown".data ∧ d.package.version = "0.0.0".data ∧
        d.package.description = []) ∧
    (readManifest fs path = none → extract_package fs path config σ = none) := by
  constructor
  · intro hne d h
    obtain ⟨files0, files1, m, h0, h1, hm, rfl⟩ := extract_package_inv h
    have hdef : readManifest fs path = some ("unknown".data, "0.0.0".data, []) := by
      unfold readManifest
      rw [hne]
      simp
    rw [hdef] at hm
    injection hm with hm
    subst hm
    exact ⟨rfl, rfl, rfl⟩
  · intro hnone
    cases h0 : entryFiles fs path config.entry_points with
    | none => simp [extract_package, h0]
    | some files0 =>
      cases h1 : srcFiles fs path config files0 with
      | none => simp [extract_package, h0, h1]
      | some files1 => simp [extract_package, h0, h1, hnone]

/-- Claim C4 (amended): `extract_package` is deterministic except for the
order of the top-level exports list, which follows the `HashMap` iteration
order: any two runs over the same inputs agree on the files map, the
metadata, the README/CHANGELOG, and produce permutations of the same
export sequence. -/
theorem C4_deterministic_up_to_order (fs : FS) (path : Str) (config : PackageConfig)
    (σ₁ σ₂ : List (Str × List Export) → List (Str × List Export))
    (d₁ d₂ : ExtractedDocs)
    (hv₁ : ValidIter σ₁) (hv₂ : ValidIter σ₂)
    (h₁ : extract_package fs path config σ₁ = some d₁)
    (h₂ : extract_package fs path config σ₂ = some d₂) :
    d₁.files = d₂.files ∧ d₁.readme = d₂.readme ∧ d₁.changelog = d₂.changelog ∧
    d₁.package.name = d₂.package.name ∧ d₁.package.version = d₂.package.version ∧
    d₁.package.description = d₂.package.description ∧
    d₁.package.path = d₂.package.path ∧ d₁.package.kind = d₂.package.kind ∧
    d₁.package.internal_deps = d₂.package.internal_deps ∧
    List.Perm d₁.package.exports d₂.package.exports := by
  obtain ⟨f0, f1, m, h0, h1', hm, rfl⟩ := extract_package_inv h₁
  obtain ⟨f0', f1', m', h0', h1'', hm', rfl⟩ := extract_package_inv h₂
  rw [h0] at h0'
  injection h0' with h0'
  subst h0'
  rw [h1'] at h1''
  injection h1'' with h1''
  subst h1''
  rw [hm] at hm'
  injection hm' with hm'
  subst hm'
  exact ⟨rfl, rfl, rfl, rfl, rfl, rfl, rfl, rfl, rfl,
    ((hv₁ f1).flatMap_right _).trans ((hv₂ f1).flatMap_right _).symm⟩

/-- Claim C5 (amended): the first README line — whether or not it is a
heading — is stripped iff, after removing leading `#` characters and
trimming, it contains the package name or is contained in it (in particular
an empty first line is always stripped, since the empty string is contained
in every name); when stripped, the remaining lines are rejoined and leading
whitespace removed; otherwise the README is appended unchanged after the
index body. -/
theorem C5_strip_condition_amended (readme package_name : Str)
    (docs : ExtractedDocs) (r : Str) :
    (skip_duplicate_heading readme package_name =
      if claimStripCond readme package_name then
        trimStartStr (joinNl ((rustLines readme).drop 1))
      else readme) ∧
    (docs.readme = some r →
      generate_package_index docs =
        idxHead docs ++ "- [Types Reference](./types.md)\n".data
          ++ (if (fnExportsOf docs).isEmpty then []
              else "- [Functions Reference](./functions.md)\n".data)
          ++ "\n".data ++ "---\n\n".data
          ++ skip_duplicate_heading r docs.package.name) := by
  constructor
  · unfold skip_duplicate_heading claimStripCond
    cases hl : (rustLines readme).head? with
    | none => simp
    | some l => split <;> rfl
  · intro hr
    unfold generate_package_index idxTail
    rw [hr]
    simp [List.append_assoc]

/-- Claim C6: `generate_package_docs` writes a `functions.md` file exactly
when the package has a function export; the index page emits the
`functions.md` documentation link exactly in that case, while the
`types.md` link is emitted unconditionally. -/
theorem C6_functions_page_iff (docs : ExtractedDocs) :
    (((generate_package_docs docs).map Prod.fst).contains ("functions.md".data)
      = !(fnExportsOf docs).isEmpty) ∧
    ((fnExportsOf docs).isEmpty = true →
      generate_package_index docs =
        idxHead docs ++ "- [Types Reference](./types.md)\n".data ++ idxTail docs) ∧
    ((fnExportsOf docs).isEmpty = false →
      generate_package_index docs =
        idxHead docs ++ "- [Types Reference](./types.md)\n".data
          ++ "- [Functions Reference](./functions.md)\n".data ++ idxTail docs) := by
  refine ⟨?_, ?_, ?_⟩
  · by_cases h1 : docs.package.exports.isEmpty = true <;>
      by_cases h2 : (fnExportsOf docs).isEmpty = true <;>
        simp only [generate_package_docs, h1, h2, Bool.not_true, Bool.not_false,
          if_true, if_false, Bool.false_eq_true, List.map_append, List.map_cons,
          List.map_nil] <;>
        decide
  · intro h2
    simp [generate_package_index, h2]
  · intro h2
    simp [generate_package_index, h2]

/-! ### Concrete fixtures and closed theorems -/

/-- The round-trip source text of claim C1: the doc comment immediately
followed by the `add` declaration. -/
def c1Text : Str :=
  ("/** Adds two numbers.\n * @param a first number\n * @param b second number\n * @returns the sum\n */\nexport function add(a: number, b: number): number \x7b").data

/-- Path of the C1 fixture file. -/
def c1Path : Str := "src/math.ts".data

/-- Filesystem holding only the C1 fixture file. -/
def c1Fs : FS := [(c1Path, some c1Text)]

/-- The export record the code actually produces for the C1 text: everything
as the claim says except that `description` is `none`, because the function
regex consumes the adjacent doc comment into the match, so `extract_jsdoc`
searches the (empty) text before the match and finds nothing. -/
def c1Export : Export :=
  { name := "add".data, kind := .kFunction, description := none,
    source_file := c1Path, line := 1,
    signature := some ("function add(a: number, b: number)".data),
    params := [⟨"a".data, "number".data, none, false, none⟩,
               ⟨"b".data, "number".data, none, false, none⟩],
    returns := some ("number".data), examples := [], deprecated := none }

/-- Claim C1 (code bug): on the claim's exact round-trip text, `extract_file`
produces exactly one Function export named `add` with the claimed parameters
and return type, but with `description = none` instead of
`"Adds two numbers."` — the doc comment is swallowed by the regex match and
never parsed. -/
theorem C1_add_roundtrip_eval :
    extract_file c1Fs c1Path = some [c1Export] ∧
    c1Export.name = "add".data ∧
    c1Export.params = [⟨"a".data, "number".data, none, false, none⟩,
                       ⟨"b".data, "number".data, none, false, none⟩] ∧
    c1Export.returns = some ("number".data) ∧
    c1Export.description = none ∧
    c1Export.description ≠ some ("Adds two numbers.".data) := by
  refine ⟨by decide, rfl, rfl, rfl, rfl, by decide⟩

/-- A file whose const declaration is preceded (non-adjacently) by a doc
comment containing a bare `@return` line. -/
def c3Text : Str :=
  ("/**\n * @return\n */\nconst a = 1;\nexport const y = 1").data

/-- Path of the C3 fixture file. -/
def c3Path : Str := "y.ts".data

/-- Filesystem holding only the C3 fixture file. -/
def c3Fs : FS := [(c3Path, some c3Text)]

/-- Claim C3 (code bug): a doc-comment line that is exactly `@return` makes
`extract_jsdoc` panic (the Rust code slices `line[8..]` out of bounds),
modelled as `none`, and the panic propagates out of `extract_file`; the
delimiter-absent case does return the empty result as claimed. -/
theorem C3_return_tag_panic_eval :
    extract_jsdoc ("/**\n@return\n*/\n").data 15 = none ∧
    extract_file c3Fs c3Path = none ∧
    extract_jsdoc ("x").data 1 = some jsdocEmpty := by
  refine ⟨by decide, by decide, by decide⟩

/-- Package root of the C2 fixtures. -/
def c2Path : Str := "pkg".data

/-- Configuration of the C2 fixtures: no entry points, no exclusions. -/
def c2Config : PackageConfig := ⟨"n".data, c2Path, .core, [], []⟩

/-- Filesystem with a syntactically malformed `package.json`. -/
def c2FsBad : FS := [(pathJoin c2Path ("package.json".data), some ("\x7b").data)]

/-- Filesystem with a present but unreadable `package.json`. -/
def c2FsUnreadable : FS := [(pathJoin c2Path ("package.json".data), none)]

/-- Filesystem with no files at all (manifest absent). -/
def c2FsNone : FS := []

/-- The extraction result for the manifest-absent C2 fixture. -/
def c2Defaults : ExtractedDocs :=
  ⟨⟨"unknown".data, "0.0.0".data, [], c2Path, .core, [], []⟩, [], none, none⟩

/-- Claim C2 counterexample: with a malformed (or unreadable) manifest that
exists, `extract_package` fails instead of falling back to the default
metadata — only a missing manifest falls back. -/
theorem C2_manifest_counterexample :
    extract_package c2FsBad c2Path c2Config id = none ∧
    extract_package c2FsUnreadable c2Path c2Config id = none := by
  refine ⟨by decide, by decide⟩

/-- Witness for the amended claim C2, at a manifest-absent filesystem and at
the malformed-manifest filesystem. -/
theorem C2_manifest_amended_witness :
    (c2Defaults.package.name = "unknown".data ∧
     c2Defaults.package.version = "0.0.0".data ∧
     c2Defaults.package.description = []) ∧
    extract_package c2FsBad c2Path c2Config id = none := by
  refine ⟨(C2_manifest_amended c2FsNone c2Path c2Config id).1 (by decide)
            c2Defaults (by decide),
          (C2_manifest_amended c2FsBad c2Path c2Config id).2 (by decide)⟩

/-- Filesystem of the C4 fixture: two source files with one const export
each. -/
def c4Fs : FS :=
  [("p/src/a.ts".data, some ("export const a = 1").data),
   ("p/src/b.ts".data, some ("export const b = 2").data)]

/-- Configuration of the C4 fixture. -/
def c4Config : PackageConfig := ⟨"n".data, "p".data, .core, [], []⟩

/-- The const export scanned from `p/src/a.ts`. -/
def c4ExportA : Export :=
  ⟨"a".data, .kConst, none, "p/src/a.ts".data, 1, none, [], none, [], none⟩

/-- The const export scanned from `p/src/b.ts`. -/
def c4ExportB : Export :=
  ⟨"b".data, .kConst, none, "p/src/b.ts".data, 1, none, [], none, [], none⟩

/-- The C4 extraction result under the identity iteration order. -/
def c4DocsId : ExtractedDocs :=
  ⟨⟨"unknown".data, "0.0.0".data, [], "p".data, .core, [], [c4ExportA, c4ExportB]⟩,
   [("p/src/a.ts".data, [c4ExportA]), ("p/src/b.ts".data, [c4ExportB])], none, none⟩

/-- The C4 extraction result under the reversed iteration order. -/
def c4DocsRev : ExtractedDocs :=
  ⟨⟨"unknown".data, "0.0.0".data, [], "p".data, .core, [], [c4ExportB, c4ExportA]⟩,
   [("p/src/a.ts".data, [c4ExportA]), ("p/src/b.ts".data, [c4ExportB])], none, none⟩

/-- Claim C4 counterexample: two runs of `extract_package` over the same
package that differ only in the `HashMap` iteration order (identity versus
reversal, both permutations of the two-binding map) produce different
`ExtractedDocs` values — the top-level export sequences are `[a, b]` and
`[b, a]`. -/
theorem C4_iteration_order_counterexample :
    extract_package c4Fs ("p".data) c4Config List.reverse ≠
      extract_package c4Fs ("p".data) c4Config id ∧
    extract_package c4Fs ("p".data) c4Config id = some c4DocsId ∧
    extract_package c4Fs ("p".data) c4Config List.reverse = some c4DocsRev := by
  refine ⟨by decide, by decide, by decide⟩

/-- Witness for the amended claim C4, at the two-file fixture with the
identity and reversal iteration orders. -/
theorem C4_deterministic_up_to_order_witness :
    c4DocsId.files = c4DocsRev.files ∧
    List.Perm c4DocsId.package.exports c4DocsRev.package.exports := by
  have h := C4_deterministic_up_to_order c4Fs ("p".data) c4Config id List.reverse
    c4DocsId c4DocsRev (fun l => List.Perm.refl l) (fun l => List.reverse_perm l)
    (by decide) (by decide)
  exact ⟨h.1, h.2.2.2.2.2.2.2.2.2⟩

/-- Claim C5 counterexample: a README whose first line is not a heading (no
leading `#`) is still stripped when it textually overlaps the package name,
so the README is not appended unchanged. -/
theorem C5_nonheading_stripped_counterexample :
    (rustLines ("foo is great\nrest").data).head? = some ("foo is great".data) ∧
    (("foo is great".data).head? ≠ some '#') ∧
    skip_duplicate_heading ("foo is great\nrest").data ("foo".data) = ("rest").data ∧
    skip_duplicate_heading ("foo is great\nrest").data ("foo".data) ≠
      ("foo is great\nrest").data := by
  refine ⟨by decide, by decide, by decide, by decide⟩

/-- An `ExtractedDocs` with a captured README, for the C5 witness. -/
def c5Docs : ExtractedDocs :=
  ⟨⟨"t".data, "1".data, [], "p".data, .core, [], []⟩, [],
   some ("# t\nbody").data, none⟩

/-- Witness for the amended claim C5, at a non-heading README with name
overlap and at a package whose README is captured. -/
theorem C5_strip_condition_amended_witness :
    (skip_duplicate_heading ("foo is great\nrest").data ("foo".data) =
      if claimStripCond ("foo is great\nrest").data ("foo".data) then
        trimStartStr (joinNl ((rustLines ("foo is great\nrest").data).drop 1))
      else ("foo is great\nrest").data) ∧
    generate_package_index c5Docs =
      idxHead c5Docs ++ "- [Types Reference](./types.md)\n".data
        ++ (if (fnExportsOf c5Docs).isEmpty then []
            else "- [Functions Reference](./functions.md)\n".data)
        ++ "\n".data ++ "---\n\n".data
        ++ skip_duplicate_heading ("# t\nbody").data c5Docs.package.name := by
  have h := C5_strip_condition_amended ("foo is great\nrest").data ("foo".data)
    c5Docs ("# t\nbody").data
  exact ⟨h.1, h.2 rfl⟩

/-- A function export for the C6 witness. -/
def c6FnExport : Export :=
  ⟨"f".data, .kFunction, none, "p.ts".data, 1, none, [], none, [], none⟩

/-- A package with no function exports, for the C6 witness. -/
def c6NoFnDocs : ExtractedDocs :=
  ⟨⟨"t".data, "1".data, [], "p".data, .core, [], []⟩, [], none, none⟩

/-- A package with one function export, for the C6 witness. -/
def c6FnDocs : ExtractedDocs :=
  ⟨⟨"t".data, "1".data, [], "p".data, .core, [], [c6FnExport]⟩, [], none, none⟩

/-- Witness for claim C6, at a package without and a package with function
exports. -/
theorem C6_functions_page_iff_witness :
    (generate_package_index c6NoFnDocs =
      idxHead c6NoFnDocs ++ "- [Types Reference](./types.md)\n".data
        ++ idxTail c6NoFnDocs) ∧
    (generate_package_index c6FnDocs =
      idxHead c6FnDocs ++ "- [Types Reference](./types.md)\n".data
        ++ "- [Functions Reference](./functions.md)\n".data ++ idxTail c6FnDocs) :=
  ⟨(C6_functions_page_iff c6NoFnDocs).2.1 (by decide),
   (C6_functions_page_iff c6FnDocs).2.2 (by decide)⟩

/-- Source text of the C8 witness: a function declared before an interface,
so the passes' fixed order differs from the textual order. -/
def c8Text : Str :=
  ("export function f() \x7b\nexport interface I \x7bx\x7d").data

/-- Path of the C8 fixture file. -/
def c8Path : Str := "g.ts".data

/-- Filesystem holding only the C8 fixture file. -/
def c8Fs : FS := [(c8Path, some c8Text)]

/-- The interface export of the C8 fixture (line 2). -/
def c8Iface : Export :=
  ⟨"I".data, .kInterface, none, c8Path, 2, some ("interface I".data), [], none, [], none⟩

/-- The function export of the C8 fixture (line 1). -/
def c8Fn : Export :=
  ⟨"f".data, .kFunction, none, c8Path, 1, some ("function f()".data), [], none, [], none⟩

/-- Witness for claim C8: on the fixture the output is the interface pass
followed by the function pass, even though the function appears first in the
text — the concatenation is not re-sorted by line. -/
theorem C8_pass_order_witness :
    ([c8Iface, c8Fn] : List Export) = [c8Iface] ++ [] ++ [c8Fn] ++ [] ++ [] ++ [] :=
  (C8_pass_order c8Fs c8Path [c8Iface, c8Fn] c8Text [c8Iface] [] [c8Fn] [] [] []
    (by decide) (by decide) (by decide) (by decide) (by decide) (by decide)
    (by decide) (by decide)).1

/-- Source text of the C9 witness. -/
def c9Text : Str := ("export const x = 1").data

/-- Path of the C9 fixture file. -/
def c9Path : Str := "c.ts".data

/-- Filesystem holding only the C9 fixture file. -/
def c9Fs : FS := [(c9Path, some c9Text)]

/-- The const export of the C9 fixture. -/
def c9Export : Export :=
  ⟨"x".data, .kConst, none, c9Path, 1, none, [], none, [], none⟩

/-- Witness for claim C9 at the C9 fixture. -/
theorem C9_name_source_invariant_witness :
    c9Export.name ≠ [] ∧ c9Export.source_file = c9Path :=
  C9_name_source_invariant c9Fs c9Path [c9Export] (by decide) c9Export (by decide)

/-- Package root of the C10 fixture. -/
def c10Path : Str := "q".data

/-- Filesystem of the C10 fixture: an entry point with zero exports, a walked
file with zero exports, and a walked file with one export. -/
def c10Fs : FS :=
  [(pathJoin c10Path ("main.ts".data), some ("hello").data),
   ("q/src/empty.ts".data, some ("nothing here").data),
   ("q/src/c.ts".data, some ("export const c = 1").data)]

/-- Configuration of the C10 fixture: `main.ts` is the declared entry point. -/
def c10Config : PackageConfig := ⟨"n".data, c10Path, .core, [("main.ts").data], []⟩

/-- The const export of the walked file `q/src/c.ts`. -/
def c10CExport : Export :=
  ⟨"c".data, .kConst, none, "q/src/c.ts".data, 1, none, [], none, [], none⟩

/-- The extraction result of the C10 fixture: the zero-export entry point is
in the files map bound to `[]`; the zero-export walked file is absent. -/
def c10Docs : ExtractedDocs :=
  ⟨⟨"unknown".data, "0.0.0".data, [], c10Path, .core, [], [c10CExport]⟩,
   [(pathJoin c10Path ("main.ts".data), []), ("q/src/c.ts".data, [c10CExport])],
   none, none⟩

/-- Witness for claim C10 at the C10 fixture: the entry point's binding
equals its (empty) scan result, and the walked binding is non-empty. -/
theorem C10_entry_vs_walk_witness :
    (alLookup (pathJoin c10Path ("main.ts".data)) c10Docs.files =
       extract_file c10Fs (pathJoin c10Path ("main.ts".data)) ∧
     (extract_file c10Fs (pathJoin c10Path ("main.ts".data))).isSome = true) ∧
    ([c10CExport] : List Export) ≠ [] := by
  have h := C10_entry_vs_walk c10Fs c10Path c10Config id c10Docs (by decide)
  exact ⟨h.1 ("main.ts".data) (by decide) (by decide),
         h.2 ("q/src/c.ts".data) [c10CExport] (by decide) (by decide)⟩

end Docgen
